import Mathlib

/-!
Verification development for the EverQuest zone-viewer decoding core
(`s3d.py` archive reader, `wld.py` fragment decoder / reference resolution /
scene assembly).  Python code is shallowly embedded: byte streams are lists
of naturals, Python exceptions are an explicit error type threaded through
`Except`, dictionaries are association lists preserving insertion order, and
mutable objects (reference caches, diagnostic counters) are passed as
explicit state.  Raw 32-bit float words that the code merely passes through
are kept as their bit patterns; the one place the code computes with floats
(`frag_objloc`) is embedded over an ordered field with `pi` as a parameter.
-/

/-- The kinds of Python exceptions the embedded code can raise. -/
inductive PyErr : Type where
  | truncated
  | keyError
  | indexError
  | typeError
  | assertionError
  | recursionError
  deriving DecidableEq

/-- Modelled from the spec: `buffer.py` (the Primitive Byte Cursor of §4.2) is
not part of the repository snapshot.  Per §4.2/§6 it is a sequential reader
over an in-memory byte string with a mutable position, little-endian
fixed-width integer reads, absolute repositioning, and a truncation error when
a read would exceed the buffer. -/
structure Buffer : Type where
  data : List Nat
  pos : Nat
  deriving DecidableEq

/-- Absolute repositioning (`b.pos = x`, and `fp.seek(x)` in `s3d.py`). -/
def Buffer.seek (b : Buffer) (x : Nat) : Buffer := { b with pos := x }

/-- Relative advance (`b += n` in `wld.py`). -/
def Buffer.adv (b : Buffer) (n : Nat) : Buffer := { b with pos := b.pos + n }

/-- `b.read(n)`: read `n` bytes and advance, or fail with the truncation
error of §4.2. -/
def Buffer.readBytes (b : Buffer) (n : Nat) : Except PyErr (List Nat × Buffer) :=
  if b.pos + n ≤ b.data.length then
    .ok ((b.data.drop b.pos).take n, { b with pos := b.pos + n })
  else .error .truncated

/-- Little-endian word value of a byte list. -/
def leWord (bs : List Nat) : Nat := bs.foldr (fun byte acc => byte + 256 * acc) 0

/-- `b.uint()`: one little-endian unsigned 32-bit integer. -/
def Buffer.uint (b : Buffer) : Except PyErr (Nat × Buffer) := do
  let (bs, b') ← b.readBytes 4
  .ok (leWord bs, b')

/-- `b.int()`: one little-endian signed 32-bit integer. -/
def Buffer.int (b : Buffer) : Except PyErr (Int × Buffer) := do
  let (v, b') ← b.uint
  .ok (if v < 2 ^ 31 then (v : Int) else (v : Int) - 2 ^ 32, b')

/-- `b.uint(n)`: a run of `n` unsigned 32-bit integers. -/
def Buffer.uintN (b : Buffer) : Nat → Except PyErr (List Nat × Buffer)
  | 0 => .ok ([], b)
  | n + 1 => do
    let (v, b') ← b.uint
    let (vs, b'') ← b'.uintN n
    .ok (v :: vs, b'')

/-! ## Archive reader (`s3d.py`) -/

/-- The reserved checksum identifying the directory entry (s3d.py line 23). -/
def SENTINEL_CRC : Nat := 0x61580AC9

/-- The chunk loop of `readS3D` (s3d.py lines 19-22): repeatedly read a
`(compressedLength, declaredDecompressedLength)` header and a compressed
chunk, append the decompressed bytes, until the accumulated length reaches
the entry's declared size.  `dec` stands for `zlib.decompress`.  The loop is
fuel-bounded; every iteration consumes at least 8 bytes of the finite buffer,
so with fuel `b.data.length + 1` the fuel case is unreachable and is reported
as the truncation the next read would produce. -/
def readChunks (dec : List Nat → List Nat) (size : Nat) :
    Nat → Buffer → List Nat → Except PyErr (List Nat × Buffer)
  | fuel, b, data =>
    if size ≤ data.length then .ok (data, b)
    else
      match fuel with
      | 0 => .error .truncated
      | fuel' + 1 => do
        let (deflen, b1) ← b.uint
        let (_inflen, b2) ← b1.uint
        let (comp, b3) ← b2.readBytes deflen
        readChunks dec size fuel' b3 (data ++ dec comp)

/-- The directory-entry loop of `readS3D` (s3d.py lines 14-22): for entry `i`,
seek to `offset + 4 + i*12`, read `(crc, fileOffset, size)`, seek to
`fileOffset` and run the chunk loop.  Returns the `(crc, fileOffset, data)`
triples in table order. -/
def readEntries (dec : List Nat → List Nat) (b : Buffer) (offset : Nat) :
    Nat → Nat → Except PyErr (List (Nat × Nat × List Nat))
  | _, 0 => .ok []
  | i, n + 1 => do
    let b0 := b.seek (offset + 4 + i * 12)
    let (crc, b1) ← b0.uint
    let (foff, b2) ← b1.uint
    let (size, b3) ← b2.uint
    let (data, _) ← readChunks dec size (b.data.length + 1) (b3.seek foff) []
    let rest ← readEntries dec b offset (i + 1) n
    .ok ((crc, foff, data) :: rest)

/-- The split performed inside the entry loop (s3d.py lines 23-26): the entry
whose checksum equals the sentinel becomes the directory blob, every other
entry is appended to the file list as an `(offset, data)` pair. -/
def splitEntries : List (Nat × Nat × List Nat) → Option (List Nat) → List (Nat × List Nat) →
    Option (List Nat) × List (Nat × List Nat)
  | [], dir, fl => (dir, fl)
  | (crc, foff, data) :: es, dir, fl =>
    if crc = SENTINEL_CRC then splitEntries es (some data) fl
    else splitEntries es dir (fl ++ [(foff, data)])

/-- Stable insertion used to model `filelist.sort(key=lambda x: x[0])`. -/
def insertByOff (x : Nat × List Nat) : List (Nat × List Nat) → List (Nat × List Nat)
  | [] => [x]
  | y :: ys => if x.1 < y.1 then x :: y :: ys else y :: insertByOff x ys

/-- `filelist.sort(key=lambda x: x[0])` (s3d.py line 28): stable ascending
sort by file offset. -/
def sortByOff (l : List (Nat × List Nat)) : List (Nat × List Nat) := l.foldr insertByOff []

/-- `bytes.strip(b"\x00")`: drop leading and trailing NUL bytes. -/
def stripNulBytes (bs : List Nat) : List Nat :=
  ((bs.dropWhile (· = 0)).reverse.dropWhile (· = 0)).reverse

/-- `.decode("utf-8", errors="ignore")`, modelled byte-to-codepoint; exact for
the ASCII filenames the format carries. -/
def decodeName (bs : List Nat) : String := String.mk (bs.map Char.ofNat)

/-- Python `str.lower()` on the ASCII range. -/
def pyLower (s : String) : String :=
  String.mk (s.data.map fun c =>
    if c.toNat ≥ 65 ∧ c.toNat ≤ 90 then Char.ofNat (c.toNat + 32) else c)

/-- Whether `p` occurs at the head of a character list. -/
def listStartsWith : List Char → List Char → Bool
  | [], _ => true
  | _ :: _, [] => false
  | p :: ps, c :: cs => p = c && listStartsWith ps cs

/-- Left-to-right replacement of every occurrence of `pat`, fuel-bounded by
the subject's length (the fuel never runs out on a full-length start). -/
def replaceChars (pat rep : List Char) : Nat → List Char → List Char
  | 0, l => l
  | _, [] => []
  | f + 1, c :: cs =>
    if pat ≠ [] && listStartsWith pat (c :: cs) then
      rep ++ replaceChars pat rep f ((c :: cs).drop pat.length)
    else c :: replaceChars pat rep f cs

/-- Python `str.replace(pat, rep)` (all occurrences; an empty pattern leaves
the string unchanged, an edge case the code never exercises). -/
def pyReplace (s pat rep : String) : String :=
  String.mk (replaceChars pat.data rep.data s.data.length s.data)

/-- Python dict assignment `files[k] = v`: replace in place if the key exists,
otherwise append (insertion order preserved). -/
def dictInsert (m : List (String × List Nat)) (k : String) (v : List Nat) :
    List (String × List Nat) :=
  if m.any (fun kv => kv.1 = k) then m.map (fun kv => if kv.1 = k then (k, v) else kv)
  else m ++ [(k, v)]

/-- The filename loop of `readS3D` (s3d.py lines 34-36): for each recovered
file (in sorted order) read a length-prefixed, NUL-padded name from the
directory blob and bind the lowercased name to the file's data. -/
def nameFiles : Buffer → List (List Nat) → List (String × List Nat) →
    Except PyErr (Buffer × List (String × List Nat))
  | b, [], files => .ok (b, files)
  | b, data :: rest, files => do
    let (len, b1) ← b.uint
    let (raw, b2) ← b1.readBytes len
    let fn := decodeName (stripNulBytes raw)
    nameFiles b2 rest (dictInsert files (pyLower fn) data)

/-- The tail of `readS3D` (s3d.py lines 28-37): sort the non-directory entries
by offset, require the directory blob, check its declared file count against
the recovered file list, then name the files from the directory blob. -/
def assembleFiles (entries : List (Nat × Nat × List Nat)) :
    Except PyErr (List (String × List Nat)) := do
  let (dirOpt, filelist0) := splitEntries entries none []
  let filelist := sortByOff filelist0
  match dirOpt with
  | none => .error .assertionError
  | some dir => do
    let (dcount, b1) ← (Buffer.mk dir 0).uint
    if dcount = filelist.length then do
      let (_, files) ← nameFiles b1 (filelist.map (·.2)) []
      .ok files
    else .error .assertionError

/-- `readS3D` (s3d.py lines 5-37): header magic check, directory-entry walk,
then file assembly.  `dec` stands for `zlib.decompress`. -/
def readS3D (dec : List Nat → List Nat) (raw : List Nat) :
    Except PyErr (List (String × List Nat)) := do
  let b := Buffer.mk raw 0
  let (offset, b1) ← b.uint
  let (magic, _) ← b1.readBytes 4
  if magic = [0x50, 0x46, 0x53, 0x20] then do
    let (count, _) ← ((Buffer.mk raw 0).seek offset).uint
    let entries ← readEntries dec (Buffer.mk raw 0) offset 0 count
    assembleFiles entries
  else .error .assertionError

/-! ## Decoded fragment values and reference resolution (`wld.py`) -/

/-- Dynamically-typed Python values flowing through the decoder: strings,
raw 32-bit words, lists, the texture-bitmap-info dict of `frag_texbitinfo`,
the `(saneflags, ref)` pair of `frag_texref`, `FragRef` objects (with their
mutable cached value), the pre-bake `(index, name, type, value)` entry tuple
of `Wld.__init__`, and the light dicts of `frag_light_info` /
`frag_light_source`.  Float fields the code only passes through (positions,
radii, colors) are kept as their raw 32-bit bit patterns. -/
inductive PyVal : Type where
  | pstr (s : String)
  | pnum (n : Nat)
  | plist (elems : List PyVal)
  | ptexinfo (textures : List PyVal) (params : Nat)
  | ppair (flags : Nat) (snd : PyVal)
  | pref (idx : Option Nat) (nm : Option String) (value : Option PyVal)
  | ptuple (idx : Nat) (nm : Option String) (ty : Nat) (v : Option PyVal)
  | plightinfo (light : PyVal) (flags : Nat) (px py pz : Nat) (radius : Nat)
  | plightsrc (attenuation : Nat) (cr cg cb : Nat)

/-- Decoder state visible to reference resolution: the bake flag, the string
table, and the fragment tables keyed by index and by (possibly absent) name.
Table values are `Option PyVal` because unhandled fragment types decode to
Python `None`. -/
structure Wld : Type where
  baked : Bool
  stringTable : List Char
  frags : List (Nat × Option PyVal)
  names : List (Option String × Option PyVal)

/-- Association-list lookup modelling Python dict subscripting. -/
def alookup {α β : Type} [DecidableEq α] : List (α × β) → α → Option β
  | [], _ => none
  | kv :: rest, k => if kv.1 = k then some kv.2 else alookup rest k

/-- Python `entry[3]` as applied to a fragment-table entry: before the rebake
pass the table entries are the `(i, name, type, frag)` tuples built at
wld.py:91, and component 3 is the decoded fragment value; subscripting any
other shape raises. -/
def pyItem3 : Option PyVal → Except PyErr (Option PyVal)
  | some (.ptuple _ _ _ v) => .ok v
  | _ => .error .typeError

/-- `Wld.getString` (wld.py lines 434-435): the NUL-terminated string at
offset `i` of the decoded string table. -/
def getString (w : Wld) (i : Nat) : String :=
  String.mk ((w.stringTable.drop i).takeWhile (· ≠ Char.ofNat 0))

/-- The lookup block of `FragRef.resolve` (wld.py lines 20-29): keep a cached
value; otherwise look the id (then the name) up in the decoder's tables — a
missing key raises `KeyError` — unwrapping the pre-bake entry tuple
(`value[3]`) when the decoder is not yet baked; with neither id nor name the
value stays `None`. -/
def resolveLookup (w : Wld) (idx : Option Nat) (nm : Option String)
    (cached : Option PyVal) : Except PyErr (Option PyVal) :=
  match cached, idx, nm with
  | some v, _, _ => .ok (some v)
  | none, some i, _ =>
    (match alookup w.frags i with
     | none => .error .keyError
     | some e => if w.baked then .ok e else pyItem3 e)
  | none, none, some n =>
    (match alookup w.names (some n) with
     | none => .error .keyError
     | some e => if w.baked then .ok e else pyItem3 e)
  | none, none, none => .ok none

/-- `FragRef.resolve` (wld.py lines 19-32): the lookup block, then chaining
through a resolved value that is itself a `FragRef`, caching the final value
on the reference.  Returns the value `resolve()` returns together with the
updated `FragRef` object.  The fuel bounds the chain, modelling the Python
recursion limit (`RecursionError` on unbounded reference chains). -/
def resolveRef (w : Wld) : Nat → Option Nat → Option String → Option PyVal →
    Except PyErr (Option PyVal × PyVal)
  | fuel, idx, nm, cached => do
    let v1 ← resolveLookup w idx nm cached
    match v1 with
    | some (.pref i2 n2 c2) =>
      match fuel with
      | 0 => .error .recursionError
      | fuel' + 1 => do
        let (v2, _) ← resolveRef w fuel' i2 n2 c2
        .ok (v2, .pref idx nm v2)
    | _ => .ok (v1, .pref idx nm v1)

/-- `FragRef.resolve` applied to a `FragRef` object held as a `PyVal`. -/
def FragRef.resolve (w : Wld) (fuel : Nat) : PyVal → Except PyErr (Option PyVal × PyVal)
  | .pref i n c => resolveRef w fuel i n c
  | _ => .error .typeError

/-- One-step unfolding of `resolveRef`, for rewriting without looping. -/
theorem resolveRef_eq (w : Wld) (fuel : Nat) (idx : Option Nat) (nm : Option String)
    (cached : Option PyVal) :
    resolveRef w fuel idx nm cached = (do
      let v1 ← resolveLookup w idx nm cached
      match v1 with
      | some (.pref i2 n2 c2) =>
        match fuel with
        | 0 => .error .recursionError
        | fuel' + 1 => do
          let (v2, _) ← resolveRef w fuel' i2 n2 c2
          .ok (v2, .pref idx nm v2)
      | _ => .ok (v1, .pref idx nm v1)) := by
  rw [resolveRef]

/-- `Wld.getFrag` (wld.py lines 468-477): build a reference from a positive
1-based index or from a negated string-table offset; when the target exists
the reference is created with the entry's decoded value (`self.frags[ref][3]`,
valid during the decode pass where entries are the 4-tuples), otherwise the
reference is created unresolved (no value). -/
def getFrag (w : Wld) (ref : Int) : Except PyErr PyVal :=
  if ref > 0 then
    let i := (ref - 1).toNat
    match alookup w.frags i with
    | some e => do
      let v ← pyItem3 e
      .ok (.pref (some i) none v)
    | none => .ok (.pref (some i) none none)
  else
    let n := getString w (-ref).toNat
    match alookup w.names (some n) with
    | some e => do
      let v ← pyItem3 e
      .ok (.pref none (some n) v)
    | none => .ok (.pref none (some n) none)

/-! ## Fragment-table walk (`Wld.__init__`, wld.py lines 81-99) -/

/-- Abstraction of what one table entry's decode attempt does to the cursor:
the type has no registered handler (`frag = None`, nothing consumed beyond
the header), the handler returns after consuming some number of bytes
(possibly fewer or more than declared), or the handler raises. -/
inductive HandlerOutcome : Type where
  | absent
  | returns (consumed : Nat)
  | raises (e : PyErr)
  deriving DecidableEq

/-- One fragment-table entry as the walk sees it: the declared `size` word
and the behaviour of its handler. -/
structure FragEntryCase : Type where
  size : Nat
  outcome : HandlerOutcome
  deriving DecidableEq

/-- One iteration of the fragment-table loop (wld.py lines 81-99) viewed
through the cursor: read the 12-byte `(size, type, nameoff)` header, compute
`epos = b.pos + size - 4`, run the handler — a raise propagates out of
`__init__` — and otherwise force `b.pos = epos`.  Returns the position the
handler left the cursor at and the forced final position. -/
def fragStep (pos : Int) (e : FragEntryCase) : Except PyErr (Int × Int) :=
  let epos : Int := (pos + 12) + (e.size : Int) - 4
  match e.outcome with
  | .raises err => .error err
  | .absent => .ok (pos + 12, epos)
  | .returns n => .ok (pos + 12 + (n : Int), epos)

/-- The fragment-table walk: successive `fragStep`s, each entry starting at
the position the previous entry was forced to.  Returns the position at
which each entry's decode finished. -/
def fragWalk (pos : Int) : List FragEntryCase → Except PyErr (List Int)
  | [] => .ok []
  | e :: es =>
    match fragStep pos e with
    | .error err => .error err
    | .ok (_, epos) =>
      match fragWalk epos es with
      | .error err => .error err
      | .ok rest => .ok (epos :: rest)

/-- The end positions the table declares: each entry starts where the
previous entry declared its end, and declares its own end at
`entryStart + 12 + size - 4` (the `epos` of wld.py line 86). -/
def declaredEnds (pos : Int) : List FragEntryCase → List Int
  | [] => []
  | e :: es =>
    let epos : Int := (pos + 12) + (e.size : Int) - 4
    epos :: declaredEnds epos es

/-- The per-vertex color block of `frag_mesh` (wld.py lines 738-741):
`tcolors = self.b.uint(colorcount)`, replaced by `[0] * vertcount` when
`colorcount == 0`, then `assert len(tcolors) == vertcount`. -/
def frag_mesh_colors (vertcount colorcount : Nat) (b : Buffer) :
    Except PyErr (List Nat × Buffer) := do
  let (tcolors0, b1) ← b.uintN colorcount
  let tcolors := if colorcount = 0 then List.replicate vertcount 0 else tcolors0
  if tcolors.length = vertcount then .ok (tcolors, b1) else .error .assertionError

/-- The `HandlerOutcome` that running the mesh handler's color block
produces: return with the bytes consumed, or raise. -/
def meshColorsOutcome (vertcount colorcount : Nat) (b : Buffer) : HandlerOutcome :=
  match frag_mesh_colors vertcount colorcount b with
  | .ok (_, b1) => .returns (b1.pos - b.pos)
  | .error e => .raises e

/-! ## Texture reference normalization (`frag_texref`, wld.py lines 662-682) -/

/-- Material flag bit `FLAG_MASKED = 1 << 0` from `zonefile.py`, documented at
direct_gltf_export.py lines 478-480. -/
def FLAG_MASKED : Nat := 1

/-- Material flag bit `FLAG_TRANSLUCENT = 1 << 1` from `zonefile.py`. -/
def FLAG_TRANSLUCENT : Nat := 2

/-- Material flag bit `FLAG_TRANSPARENT = 1 << 2` from `zonefile.py`. -/
def FLAG_TRANSPARENT : Nat := 4

/-- The raw-to-normalized flag remapping of `frag_texref` (wld.py lines
669-678), including the hard-coded `flags & 0xFFFF == 0x14` override. -/
def texrefSaneflags (flags : Nat) : Nat :=
  let saneflags := if flags = 0 then FLAG_TRANSPARENT else 0
  let saneflags := if flags &&& (2 ||| 8 ||| 16) ≠ 0 then saneflags ||| FLAG_MASKED else saneflags
  let saneflags := if flags &&& (4 ||| 8) ≠ 0 then saneflags ||| FLAG_TRANSLUCENT else saneflags
  if flags &&& 0xFFFF = 0x14 then 0 else saneflags

/-- `Wld.frag_texref` (wld.py lines 662-682): read `(pairflags, flags)`, skip
12 bytes (8 more when bit 1 of `pairflags` is set), normalize the raw flags,
read the texture-bitmap-info reference and return the `(saneflags, ref)`
pair. -/
def frag_texref (w : Wld) (b : Buffer) : Except PyErr (PyVal × Buffer) := do
  let (pairflags, b1) ← b.uint
  let (flags, b2) ← b1.uint
  let b3 := b2.adv 12
  let b4 := if pairflags &&& 2 = 2 then b3.adv 8 else b3
  let saneflags := texrefSaneflags flags
  let (r, b5) ← b4.int
  let tref ← getFrag w r
  .ok (.ppair saneflags tref, b5)

/-! ## Object placement (`frag_objloc`, wld.py lines 596-614) -/

/-- The decoded fields of an object-placement fragment. -/
structure ObjLoc (K : Type) : Type where
  position : K × K × K
  rotation : K × K × K
  scale : K × K × K
  nameoff : Int

/-- The rotation and scale arithmetic of `Wld.frag_objloc` (wld.py lines
596-614) over an ordered field, with `pi` passed for `math.pi`: the rotation
triple is remapped `(rot[2], rot[1], rot[0])` and each component scaled by
`/ 512 * 360 * pi / 180`; the scale collapses to the uniform `scale[2]` when
it exceeds the small epsilon (the float literal `0.0001`, modelled by the
rational it denotes) and to `(1, 1, 1)` otherwise.  `sref`, `pos`, `rot` and
`scale` are the words the handler read from the stream. -/
def frag_objloc {K : Type} [LinearOrderedField K] (pi : K) (sref : Int)
    (pos rot scale : K × K × K) : ObjLoc K :=
  let rot' := (rot.2.2 / 512 * 360 * pi / 180,
               rot.2.1 / 512 * 360 * pi / 180,
               rot.1 / 512 * 360 * pi / 180)
  let scale' := if scale.2.2 > 1 / 10000 then (scale.2.2, scale.2.2, scale.2.2)
                else ((1 : K), (1 : K), (1 : K))
  { position := pos, rotation := rot', scale := scale', nameoff := sref }

/-! ## Scene assembly (`convertZone` / `convertObjects` / `convertLights`) -/

/-- Modelled from the spec: `zonefile.py` is outside the snapshot; per §3 a
Material carries the normalized flag set, the ordered texture byte blobs
looked up by lowercase filename in the archive, and the opaque params word. -/
structure Material : Type where
  flags : Nat
  texdata : List (List Nat)
  params : Nat
  deriving DecidableEq

/-- Modelled from the spec (§3): the shared vertex buffer interleaves the
mesh's per-vertex positions, normals and texcoords
(`flatten(interleave(vertices, normals, texcoords))`, wld.py lines 120-127)
with the declared vertex count; the three component lists determine the
interleaved word layout and are kept as such. -/
structure VertexBuffer : Type where
  vertices : List (Nat × Nat × Nat)
  normals : List (Nat × Nat × Nat)
  texcoords : List (Nat × Nat)
  count : Nat
  deriving DecidableEq

/-- Modelled from the spec (§3): a mesh owns a material binding, the shared
vertex buffer, its triangle list and a collidability flag. -/
structure Mesh : Type where
  material : Material
  vbuf : VertexBuffer
  polys : List (Nat × Nat × Nat)
  collidable : Bool
  deriving DecidableEq

/-- The fields of a decoded `frag_mesh` dict (wld.py lines 698-750) that the
scene assembler reads: `_name`, the `textures` reference, the per-vertex
arrays (raw words), the `(collidable?, triangle)` pairs and the
polygon-to-texture run table. -/
structure MeshFrag : Type where
  name : Option String
  textures : PyVal
  vertices : List (Nat × Nat × Nat)
  normals : List (Nat × Nat × Nat)
  texcoords : List (Nat × Nat)
  polys : List (Bool × (Nat × Nat × Nat))
  polytex : List (Nat × Nat)

/-- `self.texture_warnings[key] = self.texture_warnings.get(key, 0) + 1`
(wld.py lines 132-133). -/
def bumpWarning (m : List (String × Nat)) (k : String) : List (String × Nat) :=
  if m.any (fun kv => kv.1 = k) then m.map (fun kv => if kv.1 = k then (k, kv.2 + 1) else kv)
  else m ++ [(k, 1)]

/-- Python `len(...)` on a decoded value: `FragRef.__len__` resolves first
(wld.py lines 37-38); `len(None)` and other unsized shapes raise. -/
def pyLen (w : Wld) (fuel : Nat) : PyVal → Except PyErr Nat
  | .plist l => .ok l.length
  | .pstr s => .ok s.length
  | .pref i n c => do
    let (v, _) ← resolveRef w fuel i n c
    match v with
    | some (.plist l) => .ok l.length
    | some (.pstr s) => .ok s.length
    | _ => .error .typeError
  | _ => .error .typeError

/-- Python subscripting on a decoded value: `FragRef.__getitem__` resolves
first (wld.py lines 34-35); list and tuple subscripts are bounds-checked
(`IndexError` past the end — which is also how tuple unpacking detects the
end of a 2-tuple). -/
def pyGet (w : Wld) (fuel : Nat) : PyVal → Nat → Except PyErr PyVal
  | .plist l, i =>
    match l.get? i with
    | some v => .ok v
    | none => .error .indexError
  | .ppair f s, i =>
    match i with
    | 0 => .ok (.pnum f)
    | 1 => .ok s
    | _ => .error .indexError
  | .pref ii nn c, i => do
    let (v, _) ← resolveRef w fuel ii nn c
    match v with
    | some (.plist l) =>
      (match l.get? i with
       | some x => .ok x
       | none => .error .indexError)
    | some (.ppair f s) =>
      (match i with
       | 0 => .ok (.pnum f)
       | 1 => .ok s
       | _ => .error .indexError)
    | _ => .error .typeError
  | _, _ => .error .typeError

/-- Python tuple unpacking `texflags, mtex = item`: subscript at 0 and 1 and
require exhaustion (an `IndexError`) at 2. -/
def unpack2 (w : Wld) (fuel : Nat) (item : PyVal) : Except PyErr (PyVal × PyVal) := do
  let a ← pyGet w fuel item 0
  let b ← pyGet w fuel item 1
  match pyGet w fuel item 2 with
  | .error .indexError => .ok (a, b)
  | .ok _ => .error .typeError
  | .error e => .error e

/-- A value used as a flag word must be a number. -/
def asNum : PyVal → Except PyErr Nat
  | .pnum n => .ok n
  | _ => .error .typeError

/-- Attribute access `r.value` on a `FragRef` object. -/
def refValue : PyVal → Except PyErr (Option PyVal)
  | .pref _ _ v => .ok v
  | _ => .error .typeError

/-- `mtex = mtex.value.value; texnames = mtex["textures"]; params =
mtex["params"]` given the non-None `mtex.value` (wld.py lines 141-142 and
181-182): the inner `.value` must again be a `FragRef` attribute access, and
subscripting `None` or a non-dict raises. -/
def texinfoFields (inner : PyVal) : Except PyErr (List PyVal × Nat) := do
  let v2 ← refValue inner
  match v2 with
  | some (.ptexinfo texnames params) => .ok (texnames, params)
  | some _ => .error .keyError
  | none => .error .typeError

/-- `texname[0]` for one entry of a texture-bitmap-info `textures` list: a
reference to a texture-filename-list fragment, subscripted at 0. -/
def texnameFirst (w : Wld) (fuel : Nat) (tn : PyVal) : Except PyErr String := do
  let v ← pyGet w fuel tn 0
  match v with
  | .pstr s => .ok s
  | _ => .error .typeError

/-- `self.s3d[name]`: archive file-mapping lookup, `KeyError` when absent. -/
def s3dGet (s3d : List (String × List Nat)) (k : String) : Except PyErr (List Nat) :=
  match alookup s3d k with
  | some v => .ok v
  | none => .error .keyError

/-- `Material(texflags, [self.s3d[texname[0].lower()] for texname in
texnames], params)` (wld.py lines 150-154 and 190-194). -/
def materialOf (w : Wld) (fuel : Nat) (s3d : List (String × List Nat))
    (texflags : Nat) (texnames : List PyVal) (params : Nat) : Except PyErr Material := do
  let datas ← texnames.mapM (fun tn => do
    let s ← texnameFirst w fuel tn
    s3dGet s3d (pyLower s))
  .ok { flags := texflags, texdata := datas, params := params }

/-- The collidable / non-collidable split of one polygon run (wld.py lines
155-172 and 195-206): slice `polys[off : off+count]`, split by the
per-polygon flag, and add up to two meshes (collidable first) sharing the
run's material and vertex buffer. -/
def runMeshes (material : Material) (vbuf : VertexBuffer)
    (polys : List (Bool × (Nat × Nat × Nat))) (off count : Nat) : List Mesh :=
  let run := (polys.drop off).take count
  let collidablePolys := (run.filter (·.1)).map (·.2)
  let noncollidablePolys := (run.filter (fun p => !p.1)).map (·.2)
  (if collidablePolys.length ≠ 0 then [Mesh.mk material vbuf collidablePolys true] else []) ++
  (if noncollidablePolys.length ≠ 0 then [Mesh.mk material vbuf noncollidablePolys false] else [])

/-- The state the polytex loops thread: the polygon offset, the meshes added
so far, and the decoder's diagnostic counter table. -/
structure RunState : Type where
  off : Nat
  meshes : List Mesh
  warnings : List (String × Nat)
  deriving DecidableEq

/-- One iteration of the `convertZone` polytex loop (wld.py lines 130-207)
for the run `(count, index)`.  Out of range against the resolved texture
list: bump the `convertZone` call-site counter once for the run, and — when
the texture list is non-empty — fall back to the entry at
`index % len(textures)`, building its material and adding the run's polygons,
provided that entry's reference carries a value.  In range: build the indexed
entry's material and add the run, skipping the run when the reference is
unresolved (`mtex.value is None`). -/
def zoneRunStep (w : Wld) (fuel : Nat) (s3d : List (String × List Nat))
    (mf : MeshFrag) (vbuf : VertexBuffer) (st : RunState) (count index : Nat) :
    Except PyErr RunState := do
  let ntex ← pyLen w fuel mf.textures
  if index ≥ ntex then do
    let key := "convertZone_idx" ++ toString index ++ "_avail" ++ toString ntex
    let warnings := bumpWarning st.warnings key
    if 0 < ntex then do
      let fallbackIndex := index % ntex
      let item ← pyGet w fuel mf.textures fallbackIndex
      let (texflagsV, mtex) ← unpack2 w fuel item
      let texflags ← asNum texflagsV
      let v1 ← refValue mtex
      match v1 with
      | some inner => do
        let (texnames, params) ← texinfoFields inner
        let material ← materialOf w fuel s3d texflags texnames params
        let added := runMeshes material vbuf mf.polys st.off count
        .ok { off := st.off + count, meshes := st.meshes ++ added, warnings := warnings }
      | none => .ok { off := st.off + count, meshes := st.meshes, warnings := warnings }
    else .ok { off := st.off + count, meshes := st.meshes, warnings := warnings }
  else do
    let item ← pyGet w fuel mf.textures index
    let (texflagsV, mtex) ← unpack2 w fuel item
    let texflags ← asNum texflagsV
    let v1 ← refValue mtex
    match v1 with
    | none => .ok { off := st.off + count, meshes := st.meshes, warnings := st.warnings }
    | some inner => do
      let (texnames, params) ← texinfoFields inner
      let material ← materialOf w fuel s3d texflags texnames params
      let added := runMeshes material vbuf mf.polys st.off count
      .ok { off := st.off + count, meshes := st.meshes ++ added, warnings := st.warnings }

/-- The `convertZone` polytex loop over one mesh fragment's run table. -/
def zoneRuns (w : Wld) (fuel : Nat) (s3d : List (String × List Nat))
    (mf : MeshFrag) (vbuf : VertexBuffer) : List (Nat × Nat) → RunState →
    Except PyErr RunState
  | [], st => .ok st
  | (count, index) :: rest, st => do
    let st' ← zoneRunStep w fuel s3d mf vbuf st count index
    zoneRuns w fuel s3d mf vbuf rest st'

/-- `Wld.convertZone` restricted to one mesh fragment (wld.py lines 119-207):
build the shared vertex buffer and process every polygon-to-texture run,
threading the zone's mesh list and the decoder's diagnostic counters. -/
def convertZoneMesh (w : Wld) (fuel : Nat) (s3d : List (String × List Nat))
    (mf : MeshFrag) (warnings : List (String × Nat)) :
    Except PyErr (List Mesh × List (String × Nat)) := do
  let vbuf := VertexBuffer.mk mf.vertices mf.normals mf.texcoords mf.vertices.length
  let st ← zoneRuns w fuel s3d mf vbuf mf.polytex ⟨0, [], warnings⟩
  .ok (st.meshes, st.warnings)

/-- One iteration of the `convertObjects` polytex loop (wld.py lines
226-325) for the run `(count, index)`.  Out of range against the resolved
texture list: bump the `convertObjects` call-site counter once for the run
and skip the run (no fallback).  In range: fetch the texture item (a
`KeyError` / `IndexError` skips the run), split it as a `(texflags, mtex)`
pair when it is a 2-tuple and otherwise treat it as the texture value with
flags 0, then dispatch on the shape of `mtex` — a dict gives its fields
directly, a list is a list of bare filenames, a `FragRef` is unwrapped
through up to three `.value` layers accepting a `(flags, ref)` tuple in the
middle — skipping the run on any unexpected shape. -/
def objRunStep (w : Wld) (fuel : Nat) (s3d : List (String × List Nat))
    (mf : MeshFrag) (vbuf : VertexBuffer) (st : RunState) (count index : Nat) :
    Except PyErr RunState := do
  let ntex ← pyLen w fuel mf.textures
  let skip : RunState := { off := st.off + count, meshes := st.meshes, warnings := st.warnings }
  let build : Nat → List PyVal → Nat → Except PyErr RunState := fun texflags texnames params => do
    let material ← materialOf w fuel s3d texflags texnames params
    let added := runMeshes material vbuf mf.polys st.off count
    .ok { off := st.off + count, meshes := st.meshes ++ added, warnings := st.warnings }
  if index ≥ ntex then do
    let key := "convertObjects_idx" ++ toString index ++ "_avail" ++ toString ntex
    .ok { off := st.off + count, meshes := st.meshes, warnings := bumpWarning st.warnings key }
  else
    match pyGet w fuel mf.textures index with
    | .error .keyError => .ok skip
    | .error .indexError => .ok skip
    | .error e => .error e
    | .ok textureItem => do
      let (texflags0, mtex) :=
        match textureItem with
        | .ppair f s => (f, s)
        | other => (0, other)
      match mtex with
      | .ptexinfo texnames params => build texflags0 texnames params
      | .plist names => build texflags0 (names.map (fun n => .plist [n])) 0
      | .pref _ _ c =>
        match c with
        | some (.ptexinfo texnames params) => build texflags0 texnames params
        | some (.ppair f2 inner) =>
          (match inner with
           | .pref _ _ ic =>
             (match ic with
              | some (.ptexinfo texnames params) => build f2 texnames params
              | some (.pref _ _ dc) =>
                (match dc with
                 | some (.ptexinfo texnames params) => build f2 texnames params
                 | _ => .ok skip)
              | _ => .ok skip)
           | _ => .ok skip)
        | _ => .ok skip
      | _ => .ok skip

/-- The `convertObjects` polytex loop over one mesh fragment's run table. -/
def objRuns (w : Wld) (fuel : Nat) (s3d : List (String × List Nat))
    (mf : MeshFrag) (vbuf : VertexBuffer) : List (Nat × Nat) → RunState →
    Except PyErr RunState
  | [], st => .ok st
  | (count, index) :: rest, st => do
    let st' ← objRunStep w fuel s3d mf vbuf st count index
    objRuns w fuel s3d mf vbuf rest st'

/-- `Wld.convertObjects` restricted to one mesh fragment (wld.py lines
210-325): name the object by stripping the `_DMSPRITEDEF` suffix from the
fragment's name, build the shared vertex buffer, and process every
polygon-to-texture run. -/
def convertObjectsMesh (w : Wld) (fuel : Nat) (s3d : List (String × List Nat))
    (mf : MeshFrag) (warnings : List (String × Nat)) :
    Except PyErr (String × List Mesh × List (String × Nat)) := do
  match mf.name with
  | none => .error .typeError
  | some nm => do
    let objName := pyReplace nm "_DMSPRITEDEF" ""
    let vbuf := VertexBuffer.mk mf.vertices mf.normals mf.texcoords mf.vertices.length
    let st ← objRuns w fuel s3d mf vbuf mf.polytex ⟨0, [], warnings⟩
    .ok (objName, st.meshes, st.warnings)

/-- One light emitted by `convertLights` (`zone.addLight`, wld.py lines
336-342): position, radius, attenuation, color and flags (raw words). -/
structure LightOut : Type where
  px : Nat
  py : Nat
  pz : Nat
  radius : Nat
  attenuation : Nat
  cr : Nat
  cg : Nat
  cb : Nat
  flags : Nat
  deriving DecidableEq

/-- `Wld.convertLights` (wld.py lines 333-342) over the type-0x28 fragment
list: for each light-info fragment, `light["light"] =
light["light"].resolve()` — overwriting the fragment's `light` field with the
resolved value — then emit the light from the fragment's position, radius,
and the resolved source's attenuation and color.  Returns the mutated
fragment list together with the emitted lights. -/
def convertLights (w : Wld) (fuel : Nat) : List PyVal →
    Except PyErr (List PyVal × List LightOut)
  | [] => .ok ([], [])
  | l :: ls =>
    match l with
    | .plightinfo lightref flags px py pz radius => do
      let (v, _) ← FragRef.resolve w fuel lightref
      match v with
      | some (.plightsrc att cr cg cb) => do
        let l' := PyVal.plightinfo (.plightsrc att cr cg cb) flags px py pz radius
        let (ls', outs) ← convertLights w fuel ls
        .ok (l' :: ls', ⟨px, py, pz, radius, att, cr, cg, cb, flags⟩ :: outs)
      | some _ => .error .keyError
      | none => .error .typeError
    | _ => .error .keyError

/-! ## Theorems -/

/-- Little-endian encoding of a 32-bit word, for building concrete streams. -/
def le32 (n : Nat) : List Nat :=
  [n % 256, n / 256 % 256, n / 65536 % 256, n / 16777216 % 256]

/-- An empty, baked decoder state, for concrete evaluations. -/
def emptyWld : Wld := ⟨true, [], [], []⟩

/-- Reduction of a successful monadic bind over `Except`. -/
@[simp] theorem okBind {ε α β : Type} (a : α) (f : α → Except ε β) :
    (Except.ok a : Except ε α) >>= f = f a := rfl

/-- Reduction of a failed monadic bind over `Except`. -/
@[simp] theorem errBind {ε α β : Type} (e : ε) (f : α → Except ε β) :
    (Except.error e : Except ε α) >>= f = Except.error e := rfl

/-- C2: for every fragment-table entry whose decode attempt completes —
whether the handler is absent, under-reads, or over-reads — the cursor is
force-set to the entry's declared end `entryStart + 12 + size - 4` (wld.py
lines 86 and 99), so a successful walk finishes every entry at the end
position declared by its size field and never desynchronizes. -/
theorem fragWalk_matches_declaredEnds :
    ∀ (entries : List FragEntryCase) (pos : Int) (ends : List Int),
    fragWalk pos entries = .ok ends → ends = declaredEnds pos entries := by
  intro entries
  induction entries with
  | nil =>
    intro pos ends h
    simp only [fragWalk] at h
    cases h
    rfl
  | cons e es ih =>
    intro pos ends h
    cases e with
    | mk size outcome =>
      cases outcome with
      | raises err => simp [fragWalk, fragStep] at h
      | absent =>
        simp only [fragWalk, fragStep] at h
        cases hrest : fragWalk ((pos + 12) + (size : Int) - 4) es with
        | error e' => rw [hrest] at h; exact Except.noConfusion h
        | ok rest =>
          simp only [hrest] at h
          cases h
          simp [declaredEnds, ih _ _ hrest]
      | returns n =>
        simp only [fragWalk, fragStep] at h
        cases hrest : fragWalk ((pos + 12) + (size : Int) - 4) es with
        | error e' => rw [hrest] at h; exact Except.noConfusion h
        | ok rest =>
          simp only [hrest] at h
          cases h
          simp [declaredEnds, ih _ _ hrest]

/-- Witness for C2: a three-entry table with an absent handler, an
under-reading handler (4 of the declared 16 payload bytes) and an
over-reading handler; the walk completes and every entry ends at its
declared end. -/
theorem fragWalk_matches_declaredEnds_witness :
    fragWalk 0 [⟨20, .absent⟩, ⟨4, .returns 7⟩, ⟨10, .returns 999⟩] = .ok [28, 40, 58] ∧
    [28, 40, 58] = declaredEnds 0 [⟨20, .absent⟩, ⟨4, .returns 7⟩, ⟨10, .returns 999⟩] :=
  ⟨rfl, fragWalk_matches_declaredEnds _ 0 _ rfl⟩

/-- A texture-reference fragment payload whose raw renderer flags word is
`flags`: `pairflags = 0`, twelve skipped bytes, and a forward reference `1`. -/
def texrefBuf (flags : Nat) : Buffer :=
  ⟨le32 0 ++ le32 flags ++ List.replicate 12 0 ++ le32 1, 0⟩

/-- C8: the flag normalization of `frag_texref` maps raw flags 0 to exactly
the transparent flag, raw flags 2 to exactly masked, raw flags 4 to exactly
translucent, and raw flags 6 to masked and translucent together. -/
theorem frag_texref_flag_normalization :
    frag_texref emptyWld (texrefBuf 0) =
      .ok (.ppair FLAG_TRANSPARENT (.pref (some 0) none none), (texrefBuf 0).seek 24) ∧
    frag_texref emptyWld (texrefBuf 2) =
      .ok (.ppair FLAG_MASKED (.pref (some 0) none none), (texrefBuf 2).seek 24) ∧
    frag_texref emptyWld (texrefBuf 4) =
      .ok (.ppair FLAG_TRANSLUCENT (.pref (some 0) none none), (texrefBuf 4).seek 24) ∧
    frag_texref emptyWld (texrefBuf 6) =
      .ok (.ppair (FLAG_MASKED ||| FLAG_TRANSLUCENT) (.pref (some 0) none none),
        (texrefBuf 6).seek 24) :=
  ⟨rfl, rfl, rfl, rfl⟩

/-- C7 counterexample: an object placement with rotation fixed-point units
`(512, 0, 0)` decodes — under the axis remap and the
`units / 512 * 360 * pi / 180` scale — to rotation radians `(0, 0, 2π)`,
not to the `(0, 0, π)` the claim states. -/
theorem frag_objloc_rotation_counterexample :
    (frag_objloc Real.pi 0 (0, 0, 0) (512, 0, 0) (1, 1, 1)).rotation =
      (0, 0, 2 * Real.pi) ∧
    (frag_objloc Real.pi 0 (0, 0, 0) (512, 0, 0) (1, 1, 1)).rotation ≠
      (0, 0, Real.pi) := by
  have hrot : (frag_objloc Real.pi 0 (0, 0, 0) (512, 0, 0) (1, 1, 1)).rotation =
      (0, 0, 2 * Real.pi) := by
    simp only [frag_objloc, Prod.mk.injEq]
    norm_num
    ring
  refine ⟨hrot, ?_⟩
  rw [hrot]
  intro h
  have h22 : (2 : ℝ) * Real.pi = Real.pi := congrArg (fun p => p.2.2) h
  have hpos := Real.pi_pos
  linarith

/-- C7 amended: an object placement with rotation fixed-point units
`(512, 0, 0)` — one full turn, since 512 units map to 360 degrees — decodes
to rotation radians `(0, 0, 2π)` under the declared axis remap and
unit-to-radian scale. -/
theorem frag_objloc_rotation_512 :
    (frag_objloc Real.pi 7 (0, 0, 0) (512, 0, 0) (1, 1, 1)) =
      { position := (0, 0, 0), rotation := (0, 0, 2 * Real.pi),
        scale := (1, 1, 1), nameoff := 7 } := by
  simp only [frag_objloc, ObjLoc.mk.injEq, Prod.mk.injEq]
  norm_num
  ring

/-- Reading `n` 32-bit words succeeds whenever the buffer holds `4 * n` bytes
past the cursor, yields exactly `n` words, and advances the cursor by
`4 * n`. -/
theorem uintN_ok : ∀ (n : Nat) (b : Buffer), b.pos + 4 * n ≤ b.data.length →
    ∃ vs, b.uintN n = .ok (vs, ⟨b.data, b.pos + 4 * n⟩) ∧ vs.length = n := by
  intro n
  induction n with
  | zero =>
    intro b _
    exact ⟨[], by cases b; simp [Buffer.uintN], rfl⟩
  | succ m ih =>
    intro b hlen
    have h4 : b.pos + 4 ≤ b.data.length := by omega
    have huint : b.uint = .ok (leWord ((b.data.drop b.pos).take 4), ⟨b.data, b.pos + 4⟩) := by
      simp [Buffer.uint, Buffer.readBytes, if_pos h4]
    rcases ih ⟨b.data, b.pos + 4⟩ (by simp; omega) with ⟨vs, hvs, hlenvs⟩
    have harith : b.pos + 4 + 4 * m = b.pos + 4 * (m + 1) := by ring
    rw [show (⟨b.data, b.pos + 4⟩ : Buffer) = ⟨b.data, b.pos + 4⟩ from rfl, harith] at hvs
    refine ⟨leWord ((b.data.drop b.pos).take 4) :: vs, ?_, by simp [hlenvs]⟩
    simp only [Buffer.uintN, huint, okBind, hvs]

/-- A raising entry anywhere after a successfully walked prefix aborts the
whole fragment-table walk with that entry's exception (there is no
per-fragment catch in `Wld.__init__`). -/
theorem fragWalk_raises_aborts :
    ∀ (pre : List FragEntryCase) (pos : Int) (ends : List Int) (err : PyErr)
      (e : FragEntryCase) (post : List FragEntryCase),
    fragWalk pos pre = .ok ends → e.outcome = .raises err →
    fragWalk pos (pre ++ e :: post) = .error err := by
  intro pre
  induction pre with
  | nil =>
    intro pos ends err e post _ hout
    simp [fragWalk, fragStep, hout]
  | cons p ps ih =>
    intro pos ends err e post h hout
    cases p with
    | mk size outcome =>
      cases outcome with
      | raises perr => simp [fragWalk, fragStep] at h
      | absent =>
        simp only [List.cons_append, fragWalk, fragStep, List.append_eq] at h ⊢
        cases hrest : fragWalk ((pos + 12) + (size : Int) - 4) ps with
        | error e' => rw [hrest] at h; exact Except.noConfusion h
        | ok rest =>
          rw [ih _ _ _ _ post hrest hout]
      | returns n =>
        simp only [List.cons_append, fragWalk, fragStep, List.append_eq] at h ⊢
        cases hrest : fragWalk ((pos + 12) + (size : Int) - 4) ps with
        | error e' => rw [hrest] at h; exact Except.noConfusion h
        | ok rest =>
          rw [ih _ _ _ _ post hrest hout]

/-- C10: a mesh fragment whose declared per-vertex color count is nonzero
and differs from its declared vertex count fails the `assert len(tcolors) ==
vertcount` of wld.py line 741 with an `AssertionError` that aborts the whole
fragment-table walk (the walk has no per-fragment catch; only the forced
cursor reset of a *returning* handler is tolerant); the assertion is
unreachable exactly when the color count is zero or equals the vertex
count. -/
theorem frag_mesh_color_assert (vertcount colorcount : Nat) (b : Buffer)
    (hbytes : b.pos + 4 * colorcount ≤ b.data.length) :
    (colorcount ≠ 0 → colorcount ≠ vertcount →
      frag_mesh_colors vertcount colorcount b = .error .assertionError ∧
      ∀ (pos : Int) (pre post : List FragEntryCase) (ends : List Int) (sz : Nat),
        fragWalk pos pre = .ok ends →
        fragWalk pos (pre ++ ⟨sz, meshColorsOutcome vertcount colorcount b⟩ :: post) =
          .error .assertionError) ∧
    ((colorcount = 0 ∨ colorcount = vertcount) →
      ∃ tcolors b1, frag_mesh_colors vertcount colorcount b = .ok (tcolors, b1) ∧
        tcolors.length = vertcount) := by
  rcases uintN_ok colorcount b hbytes with ⟨vs, hvs, hlenvs⟩
  constructor
  · intro hc0 hcv
    have herr : frag_mesh_colors vertcount colorcount b = .error .assertionError := by
      simp only [frag_mesh_colors, hvs]
      simp [if_neg hc0, hlenvs, hcv]
    refine ⟨herr, ?_⟩
    intro pos pre post ends sz hpre
    have hout : (FragEntryCase.mk sz (meshColorsOutcome vertcount colorcount b)).outcome =
        .raises .assertionError := by
      simp [meshColorsOutcome, herr]
    exact fragWalk_raises_aborts pre pos ends .assertionError _ post hpre hout
  · intro hcase
    rcases hcase with hc0 | hcv
    · subst hc0
      refine ⟨List.replicate vertcount 0, ⟨b.data, b.pos + 4 * 0⟩, ?_, by simp⟩
      simp [frag_mesh_colors, hvs]
    · subst hcv
      by_cases hz : colorcount = 0
      · subst hz
        refine ⟨List.replicate 0 0, ⟨b.data, b.pos + 4 * 0⟩, ?_, by simp⟩
        simp [frag_mesh_colors, hvs]
      · refine ⟨vs, ⟨b.data, b.pos + 4 * colorcount⟩, ?_, hlenvs⟩
        simp [frag_mesh_colors, hvs, if_neg hz, hlenvs]

/-- Witness for C10: a mesh declaring 3 vertices but 2 color words raises the
assertion and aborts a walk that had already decoded one fragment. -/
theorem frag_mesh_color_assert_witness :
    frag_mesh_colors 3 2 ⟨List.replicate 8 0, 0⟩ = .error .assertionError ∧
    fragWalk 0 ([⟨20, .absent⟩] ++ ⟨9, meshColorsOutcome 3 2 ⟨List.replicate 8 0, 0⟩⟩ :: []) =
      .error .assertionError ∧
    (∃ tcolors b1, frag_mesh_colors 3 3 ⟨List.replicate 12 0, 0⟩ = .ok (tcolors, b1) ∧
      tcolors.length = 3) :=
  ⟨((frag_mesh_color_assert 3 2 ⟨List.replicate 8 0, 0⟩ (by simp)).1
      (by decide) (by decide)).1,
   ((frag_mesh_color_assert 3 2 ⟨List.replicate 8 0, 0⟩ (by simp)).1
      (by decide) (by decide)).2 0 [⟨20, .absent⟩] [] [28] 9 rfl,
   (frag_mesh_color_assert 3 3 ⟨List.replicate 12 0, 0⟩ (by simp)).2 (Or.inr rfl)⟩

/-- C3 counterexample: constructing a reference to the missing fragment
index 4 (`getFrag(5)` on empty tables) does yield an explicitly unresolved
reference, but invoking `resolve()` on that unresolved reference raises
`KeyError` (the `self.wld.frags[self.id]` lookup of wld.py line 23) instead
of yielding an unresolved state. -/
theorem unresolved_resolve_raises :
    getFrag emptyWld 5 = .ok (.pref (some 4) none none) ∧
    FragRef.resolve emptyWld 3 (.pref (some 4) none none) = .error .keyError := by
  constructor
  · simp [getFrag, emptyWld, alookup]
  · simp [FragRef.resolve, resolveRef, resolveLookup, emptyWld, alookup]

/-- C3 amended: for a positive index or a name with no corresponding
fragment, `getFrag` returns an explicit unresolved reference (value `None`)
without raising, and callers that test the `value` field can treat it as an
absent, skippable binding — but calling `resolve()` on such an unresolved
reference raises `KeyError` rather than returning an unresolved state. -/
theorem getFrag_missing_unresolved (w : Wld) (fuel : Nat) (ref : Int) :
    (ref > 0 → alookup w.frags (ref - 1).toNat = none →
      getFrag w ref = .ok (.pref (some (ref - 1).toNat) none none) ∧
      FragRef.resolve w fuel (.pref (some (ref - 1).toNat) none none) = .error .keyError) ∧
    (ref ≤ 0 → alookup w.names (some (getString w (-ref).toNat)) = none →
      getFrag w ref = .ok (.pref none (some (getString w (-ref).toNat)) none) ∧
      FragRef.resolve w fuel (.pref none (some (getString w (-ref).toNat)) none) =
        .error .keyError) := by
  constructor
  · intro hpos hlook
    constructor
    · simp only [getFrag, if_pos hpos, hlook]
    · have h1 : FragRef.resolve w fuel (.pref (some (ref - 1).toNat) none none) =
          resolveRef w fuel (some (ref - 1).toNat) none none := rfl
      rw [h1, resolveRef_eq]
      simp only [resolveLookup, hlook, errBind]
  · intro hle hlook
    have hneg : ¬ ref > 0 := by omega
    constructor
    · simp only [getFrag, if_neg hneg, hlook]
    · have h1 : FragRef.resolve w fuel (.pref none (some (getString w (-ref).toNat)) none) =
          resolveRef w fuel none (some (getString w (-ref).toNat)) none := rfl
      rw [h1, resolveRef_eq]
      simp only [resolveLookup, hlook, errBind]

/-- Witness for C3's amended theorem: index 7 and name `""` are both absent
from the empty decoder's tables; construction succeeds unresolved and
resolution raises `KeyError` for each. -/
theorem getFrag_missing_unresolved_witness :
    (getFrag emptyWld 7 = .ok (.pref (some 6) none none) ∧
      FragRef.resolve emptyWld 2 (.pref (some 6) none none) = .error .keyError) ∧
    (getFrag emptyWld (-1) = .ok (.pref none (some "") none) ∧
      FragRef.resolve emptyWld 2 (.pref none (some "") none) = .error .keyError) :=
  ⟨(getFrag_missing_unresolved emptyWld 2 7).1 (by decide) rfl,
   (getFrag_missing_unresolved emptyWld 2 (-1)).2 (by decide) rfl⟩

/-- C9 counterexample: `convertLights` modifies a decoded fragment after the
decode pass — the light-info fragment's `light` field, an unresolved-looking
`FragRef`, is overwritten with the resolved light-source value (wld.py line
335), so the fragment that comes back differs from the one that went in. -/
theorem convertLights_mutates_fragment :
    convertLights ⟨true, [], [(0, some (.plightsrc 200 9 9 9))], []⟩ 2
        [.plightinfo (.pref (some 0) none none) 7 1 2 3 50] =
      .ok ([.plightinfo (.plightsrc 200 9 9 9) 7 1 2 3 50],
           [⟨1, 2, 3, 50, 200, 9, 9, 9, 7⟩]) ∧
    PyVal.plightinfo (.plightsrc 200 9 9 9) 7 1 2 3 50 ≠
      PyVal.plightinfo (.pref (some 0) none none) 7 1 2 3 50 := by
  constructor
  · simp [convertLights, FragRef.resolve, resolveRef, resolveLookup, alookup]
  · intro h
    injection h with h1
    exact PyVal.noConfusion h1

/-- C9 amended: fragments are created once during the single forward decode
pass, and `convertZone` / `convertObjects` leave the fragment tables alone,
but `convertLights` is an exception: it overwrites each light fragment's
`light` field with its resolved light-source value, leaving the fragment's
other fields unchanged. -/
theorem convertLights_overwrites_light_field (w : Wld) (fuel : Nat) :
    ∀ (ls ls' : List PyVal) (outs : List LightOut),
    convertLights w fuel ls = .ok (ls', outs) →
    List.Forall₂ (fun l l' =>
      ∃ ref flags px py pz radius att cr cg cb r2,
        l = PyVal.plightinfo ref flags px py pz radius ∧
        FragRef.resolve w fuel ref = .ok (some (.plightsrc att cr cg cb), r2) ∧
        l' = PyVal.plightinfo (.plightsrc att cr cg cb) flags px py pz radius) ls ls' := by
  intro ls
  induction ls with
  | nil =>
    intro ls' outs h
    simp only [convertLights] at h
    injection h with h1
    injection h1 with ha hb
    rw [← ha]
    exact List.Forall₂.nil
  | cons l ls ih =>
    intro ls' outs h
    cases l with
    | plightinfo lightref flags px py pz radius =>
      cases hres : FragRef.resolve w fuel lightref with
      | error e =>
        simp only [convertLights, hres, errBind] at h
        exact Except.noConfusion h
      | ok pr =>
        obtain ⟨v, r2⟩ := pr
        cases v with
        | none =>
          simp only [convertLights, hres, okBind] at h
          exact Except.noConfusion h
        | some pv =>
          cases pv with
          | plightsrc att cr cg cb =>
            cases hrec : convertLights w fuel ls with
            | error e =>
              simp only [convertLights, hres, okBind, hrec, errBind] at h
              exact Except.noConfusion h
            | ok pr2 =>
              obtain ⟨ls2, outs2⟩ := pr2
              simp only [convertLights, hres, okBind, hrec] at h
              injection h with h1
              injection h1 with ha hb
              rw [← ha]
              refine List.Forall₂.cons ?_ (ih ls2 outs2 hrec)
              exact ⟨lightref, flags, px, py, pz, radius, att, cr, cg, cb, r2, rfl, hres, rfl⟩
          | pstr s => simp only [convertLights, hres, okBind] at h; exact Except.noConfusion h
          | pnum n => simp only [convertLights, hres, okBind] at h; exact Except.noConfusion h
          | plist es => simp only [convertLights, hres, okBind] at h; exact Except.noConfusion h
          | ptexinfo ts p => simp only [convertLights, hres, okBind] at h; exact Except.noConfusion h
          | ppair f s => simp only [convertLights, hres, okBind] at h; exact Except.noConfusion h
          | pref i n c => simp only [convertLights, hres, okBind] at h; exact Except.noConfusion h
          | ptuple i n t v => simp only [convertLights, hres, okBind] at h; exact Except.noConfusion h
          | plightinfo a b2 c d e f => simp only [convertLights, hres, okBind] at h; exact Except.noConfusion h
    | pstr s => simp only [convertLights] at h; exact Except.noConfusion h
    | pnum n => simp only [convertLights] at h; exact Except.noConfusion h
    | plist es => simp only [convertLights] at h; exact Except.noConfusion h
    | ptexinfo ts p => simp only [convertLights] at h; exact Except.noConfusion h
    | ppair f s => simp only [convertLights] at h; exact Except.noConfusion h
    | pref i n c => simp only [convertLights] at h; exact Except.noConfusion h
    | ptuple i n t v => simp only [convertLights] at h; exact Except.noConfusion h
    | plightsrc a b2 c d => simp only [convertLights] at h; exact Except.noConfusion h

/-- Witness for C9's amended theorem at a concrete one-light table. -/
theorem convertLights_overwrites_light_field_witness :
    List.Forall₂ (fun l l' =>
      ∃ ref flags px py pz radius att cr cg cb r2,
        l = PyVal.plightinfo ref flags px py pz radius ∧
        FragRef.resolve ⟨true, [], [(0, some (.plightsrc 201 8 7 6))], []⟩ 2 ref =
          .ok (some (.plightsrc att cr cg cb), r2) ∧
        l' = PyVal.plightinfo (.plightsrc att cr cg cb) flags px py pz radius)
      [.plightinfo (.pref (some 0) none none) 5 10 11 12 60]
      [.plightinfo (.plightsrc 201 8 7 6) 5 10 11 12 60] :=
  convertLights_overwrites_light_field ⟨true, [], [(0, some (.plightsrc 201 8 7 6))], []⟩ 2
    [.plightinfo (.pref (some 0) none none) 5 10 11 12 60]
    [.plightinfo (.plightsrc 201 8 7 6) 5 10 11 12 60]
    [⟨10, 11, 12, 60, 201, 8, 7, 6, 5⟩]
    (by simp [convertLights, FragRef.resolve, resolveRef, resolveLookup, alookup])

/-- Structure of a successful resolution: the updated reference caches
exactly the returned value, and the returned value is never itself a
`FragRef` (the chain always bottoms out). -/
theorem resolveRef_shape (w : Wld) :
    ∀ (fuel : Nat) (i : Option Nat) (n : Option String) (c : Option PyVal)
      (v : Option PyVal) (r' : PyVal),
    resolveRef w fuel i n c = .ok (v, r') →
    r' = .pref i n v ∧ ∀ i2 n2 c2, v ≠ some (.pref i2 n2 c2) := by
  intro fuel
  induction fuel with
  | zero =>
    intro i n c v r' h
    rw [resolveRef_eq] at h
    cases hL : resolveLookup w i n c with
    | error e => rw [hL] at h; simp only [errBind] at h; exact Except.noConfusion h
    | ok v1 =>
      rw [hL] at h; simp only [okBind] at h
      split at h
      · exact Except.noConfusion h
      · injection h with h1
        injection h1 with hv hr
        subst hv
        rename_i hne
        exact ⟨hr.symm, fun i2 n2 c2 hc => hne i2 n2 c2 hc⟩
  | succ f ih =>
    intro i n c v r' h
    rw [resolveRef_eq] at h
    cases hL : resolveLookup w i n c with
    | error e => rw [hL] at h; simp only [errBind] at h; exact Except.noConfusion h
    | ok v1 =>
      rw [hL] at h; simp only [okBind] at h
      split at h
      · rename_i i2 n2 c2
        cases hrec : resolveRef w f i2 n2 c2 with
        | error e => simp only [hrec, errBind] at h; exact Except.noConfusion h
        | ok pr =>
          obtain ⟨v2, r2⟩ := pr
          simp only [hrec, okBind] at h
          injection h with h1
          injection h1 with hv hr
          subst hv
          exact ⟨hr.symm, (ih i2 n2 c2 v2 r2 hrec).2⟩
      · injection h with h1
        injection h1 with hv hr
        subst hv
        rename_i hne
        exact ⟨hr.symm, fun i2 n2 c2 hc => hne i2 n2 c2 hc⟩

/-- Consistency of a reference's cached value with the decoder's tables:
`getFrag` only ever creates a cached value by copying the referenced entry
out of the table it was found in (wld.py lines 468-477), so a cached value
always equals the table entry for the reference's id (or, with no id, its
name). -/
def cacheConsistent (w : Wld) (idx : Option Nat) (nm : Option String)
    (cached : Option PyVal) : Prop :=
  ∀ val, cached = some val →
    match idx, nm with
    | some i, _ => alookup w.frags i = some (some val)
    | none, some n => alookup w.names (some n) = some (some val)
    | none, none => True

/-- C5: resolution is idempotent on a baked decoder — a successful
`resolve()` caches the terminal value of the reference chain on the
reference, and resolving the updated reference again returns the same value
and leaves the reference unchanged (the model's `resolve` reads only the
in-memory tables, never the stream, and the second call re-reads nothing at
all when a value is cached). -/
theorem resolve_idempotent (w : Wld) (hb : w.baked = true) (fuel : Nat)
    (i : Option Nat) (n : Option String) (c : Option PyVal)
    (hcons : cacheConsistent w i n c) (v : Option PyVal) (r' : PyVal)
    (h : resolveRef w fuel i n c = .ok (v, r')) :
    r' = .pref i n v ∧ FragRef.resolve w fuel r' = .ok (v, r') := by
  obtain ⟨hr', hnp⟩ := resolveRef_shape w fuel i n c v r' h
  subst hr'
  refine ⟨rfl, ?_⟩
  rcases v with _ | val
  · rcases c with _ | cval
    · exact h
    · have hcv := hcons cval rfl
      rw [resolveRef_eq] at h
      have hLk : resolveLookup w i n (some cval) = .ok (some cval) := rfl
      rw [hLk] at h; simp only [okBind] at h
      split at h
      · rename_i i2 n2 c2 heq
        injection heq with heq2
        subst heq2
        cases fuel with
        | zero => exact Except.noConfusion h
        | succ f =>
          cases hrec : resolveRef w f i2 n2 c2 with
          | error e => simp only [hrec, errBind] at h; exact Except.noConfusion h
          | ok pr =>
            obtain ⟨v2, r2⟩ := pr
            simp only [hrec, okBind] at h
            injection h with h1
            injection h1 with hv hrr
            subst hv
            show resolveRef w (f + 1) i n none = .ok (none, .pref i n none)
            rw [resolveRef_eq]
            rcases i with _ | idx
            · rcases n with _ | nm
              · rfl
              · have hcv' : alookup w.names (some nm) = some (some (.pref i2 n2 c2)) := hcv
                have hLk2 : resolveLookup w none (some nm) none =
                    .ok (some (.pref i2 n2 c2)) := by
                  simp only [resolveLookup, hcv', hb, if_true]
                rw [hLk2]
                simp only [okBind, hrec]
            · have hcv' : alookup w.frags idx = some (some (.pref i2 n2 c2)) := hcv
              have hLk2 : resolveLookup w (some idx) n none =
                  .ok (some (.pref i2 n2 c2)) := by
                simp only [resolveLookup, hcv', hb, if_true]
              rw [hLk2]
              simp only [okBind, hrec]
      · injection h with h1
        injection h1 with hv hrr
        exact Option.noConfusion hv
  · show resolveRef w fuel i n (some val) = .ok (some val, .pref i n (some val))
    rw [resolveRef_eq]
    have hLk : resolveLookup w i n (some val) = .ok (some val) := rfl
    rw [hLk]
    simp only [okBind]

/-- Witness for C5: a two-step reference chain (index 0 → index 1 → a
string-list value); the first resolution caches the terminal value and the
second returns the same value with the reference unchanged. -/
theorem resolve_idempotent_witness :
    FragRef.resolve ⟨true, [], [(0, some (.pref (some 1) none none)),
        (1, some (.pstr "x"))], []⟩ 2
      (.pref (some 0) none (some (.pstr "x"))) =
      .ok (some (.pstr "x"), .pref (some 0) none (some (.pstr "x"))) :=
  (resolve_idempotent
    ⟨true, [], [(0, some (.pref (some 1) none none)), (1, some (.pstr "x"))], []⟩
    rfl 2 (some 0) none none (fun _ hval => Option.noConfusion hval)
    (some (.pstr "x")) (.pref (some 0) none (some (.pstr "x")))
    (by simp [resolveRef, resolveLookup, alookup])).2

/-- A concrete mesh fragment for C1: one texture-list entry (the usual
texlist → texref → texunk → texbitinfo → texname chain, with every reference
already carrying its decoded target), two polygons, and one
polygon-to-texture run `(2, 5)` whose texture index 5 is out of range against
the single-entry texture list. -/
def c1mf : MeshFrag :=
  { name := some "BARREL_DMSPRITEDEF"
    textures := .pref (some 9) none (some (.plist
      [.pref (some 2) none (some (.ppair 4 (.pref (some 3) none (some
        (.pref (some 0) none (some (.ptexinfo
          [.pref (some 1) none (some (.plist [.pstr "A.BMP"]))] 7)))))))]))
    vertices := [(0, 0, 0), (1, 1, 1), (2, 2, 2)]
    normals := [(0, 0, 0), (1, 1, 1), (2, 2, 2)]
    texcoords := [(0, 0), (1, 0), (0, 1)]
    polys := [(true, (0, 1, 2)), (false, (2, 1, 0))]
    polytex := [(2, 5)] }

/-- The shared vertex buffer `convertZone` / `convertObjects` build for
`c1mf`. -/
def c1vbuf : VertexBuffer :=
  VertexBuffer.mk c1mf.vertices c1mf.normals c1mf.texcoords c1mf.vertices.length

/-- C1 counterexample: on the same mesh fragment with the out-of-range run
`(2, 5)` against a non-empty (and fully resolvable) texture list,
`convertZone` applies the modulo fallback and assigns the run's polygons the
material of entry `5 % 1 = 0`, but `convertObjects` drops the run's polygons
entirely (no mesh is produced) while still counting the run once — refuting
the claim that both call sites assign the fallback material. -/
theorem convertObjects_oob_run_dropped :
    convertObjectsMesh emptyWld 3 [("a.bmp", [1, 2, 3])] c1mf [] =
      .ok ("BARREL", [], [("convertObjects_idx5_avail1", 1)]) ∧
    convertZoneMesh emptyWld 3 [("a.bmp", [1, 2, 3])] c1mf [] =
      .ok ([Mesh.mk ⟨4, [[1, 2, 3]], 7⟩ c1vbuf [(0, 1, 2)] true,
            Mesh.mk ⟨4, [[1, 2, 3]], 7⟩ c1vbuf [(2, 1, 0)] false],
           [("convertZone_idx5_avail1", 1)]) := by
  constructor
  · simp [convertObjectsMesh, objRuns, objRunStep, pyLen, pyGet, resolveRef,
      resolveLookup, alookup, c1mf, c1vbuf, emptyWld, bumpWarning, pyReplace,
      replaceChars, listStartsWith]
    rfl
  · simp [convertZoneMesh, zoneRuns, zoneRunStep, pyLen, pyGet, unpack2, asNum,
      refValue, texinfoFields, materialOf, texnameFirst, s3dGet, runMeshes,
      resolveRef, resolveLookup, alookup, c1mf, c1vbuf, emptyWld, bumpWarning,
      pyLower, List.mapM, List.mapM.loop]
    try rfl

/-- C1 amended: for a polygon run `(count, index)` with `index` out of range
against a non-empty resolved texture list, `convertZone` records its
call-site counter once for the run (not per polygon) and — whenever the
fallback entry at `index % textureCount` resolves to a texture-bitmap-info —
assigns the run's polygons the material built from that entry;
`convertObjects`, on the same run, records its own call-site counter once
and drops the run's polygons with no fallback. -/
theorem oob_run_fallback_policy (w : Wld) (fuel : Nat) (s3d : List (String × List Nat))
    (mf : MeshFrag) (vbuf : VertexBuffer) (st : RunState) (count index ntex : Nat)
    (item mtex inner : PyVal) (texflags : Nat) (texnames : List PyVal) (params : Nat)
    (material : Material)
    (hlen : pyLen w fuel mf.textures = .ok ntex)
    (hoob : index ≥ ntex) (hpos : 0 < ntex)
    (hitem : pyGet w fuel mf.textures (index % ntex) = .ok item)
    (hunpack : unpack2 w fuel item = .ok (.pnum texflags, mtex))
    (hval : refValue mtex = .ok (some inner))
    (hfields : texinfoFields inner = .ok (texnames, params))
    (hmat : materialOf w fuel s3d texflags texnames params = .ok material) :
    zoneRunStep w fuel s3d mf vbuf st count index =
      .ok { off := st.off + count,
            meshes := st.meshes ++ runMeshes material vbuf mf.polys st.off count,
            warnings := bumpWarning st.warnings
              ("convertZone_idx" ++ toString index ++ "_avail" ++ toString ntex) } ∧
    objRunStep w fuel s3d mf vbuf st count index =
      .ok { off := st.off + count, meshes := st.meshes,
            warnings := bumpWarning st.warnings
              ("convertObjects_idx" ++ toString index ++ "_avail" ++ toString ntex) } := by
  constructor
  · simp only [zoneRunStep, hlen, okBind, hoob, if_true, hpos, hitem, hunpack,
      asNum, hval, hfields, hmat]
  · simp only [objRunStep, hlen, okBind, hoob, if_true]

/-- Witness for C1's amended theorem, at the concrete mesh fragment with run
`(2, 5)` against one texture entry: the fallback entry is `5 % 1 = 0`, the
zone path adds its two split meshes and counts once, the objects path only
counts once. -/
theorem oob_run_fallback_policy_witness :
    zoneRunStep emptyWld 3 [("a.bmp", [1, 2, 3])] c1mf c1vbuf ⟨0, [], []⟩ 2 5 =
      .ok { off := 2,
            meshes := runMeshes ⟨4, [[1, 2, 3]], 7⟩ c1vbuf c1mf.polys 0 2,
            warnings := [("convertZone_idx5_avail1", 1)] } ∧
    objRunStep emptyWld 3 [("a.bmp", [1, 2, 3])] c1mf c1vbuf ⟨0, [], []⟩ 2 5 =
      .ok { off := 2, meshes := [],
            warnings := [("convertObjects_idx5_avail1", 1)] } := by
  have h := oob_run_fallback_policy emptyWld 3 [("a.bmp", [1, 2, 3])] c1mf c1vbuf
    ⟨0, [], []⟩ 2 5 1
    (.pref (some 2) none (some (.ppair 4 (.pref (some 3) none (some
      (.pref (some 0) none (some (.ptexinfo
        [.pref (some 1) none (some (.plist [.pstr "A.BMP"]))] 7))))))))
    (.pref (some 3) none (some
      (.pref (some 0) none (some (.ptexinfo
        [.pref (some 1) none (some (.plist [.pstr "A.BMP"]))] 7)))))
    (.pref (some 0) none (some (.ptexinfo
      [.pref (some 1) none (some (.plist [.pstr "A.BMP"]))] 7)))
    4 [.pref (some 1) none (some (.plist [.pstr "A.BMP"]))] 7
    ⟨4, [[1, 2, 3]], 7⟩
    (by simp [pyLen, resolveRef, resolveLookup, c1mf])
    (by decide) (by decide)
    (by simp [pyGet, resolveRef, resolveLookup, c1mf])
    (by simp [unpack2, pyGet, resolveRef, resolveLookup])
    (by simp [refValue])
    (by simp [texinfoFields, refValue])
    (by simp [materialOf, texnameFirst, pyGet, resolveRef, resolveLookup, s3dGet,
      alookup, pyLower, List.mapM, List.mapM.loop])
  refine ⟨?_, ?_⟩
  · have h1 := h.1
    rw [h1]
    rfl
  · have h2 := h.2
    rw [h2]
    rfl

/-- A chunk stream starting at buffer `b` whose actual decompressed lengths
sum to `n`: either no chunks, or one `(deflen, inflen)`-headed chunk whose
decompressed bytes contribute their length, followed by a stream for the
rest. -/
inductive ChunksSum (dec : List Nat → List Nat) : Buffer → Nat → Prop where
  | zero (b : Buffer) : ChunksSum dec b 0
  | more (b b1 b2 b3 : Buffer) (deflen inflen : Nat) (comp : List Nat) (rest : Nat) :
      b.uint = .ok (deflen, b1) → b1.uint = .ok (inflen, b2) →
      b2.readBytes deflen = .ok (comp, b3) → ChunksSum dec b3 rest →
      ChunksSum dec b ((dec comp).length + rest)

/-- A successful chunk loop stops only once the accumulated decompressed
length has reached the declared size. -/
theorem readChunks_ok_length (dec : List Nat → List Nat) (size : Nat) :
    ∀ (fuel : Nat) (b : Buffer) (acc data : List Nat) (b' : Buffer),
    readChunks dec size fuel b acc = .ok (data, b') → size ≤ data.length := by
  intro fuel
  induction fuel with
  | zero =>
    intro b acc data b' h
    rw [readChunks] at h
    by_cases hle : size ≤ acc.length
    · rw [if_pos hle] at h
      injection h with h1
      injection h1 with hd hb
      subst hd
      omega
    · rw [if_neg hle] at h
      exact Except.noConfusion h
  | succ f ih =>
    intro b acc data b' h
    rw [readChunks] at h
    by_cases hle : size ≤ acc.length
    · rw [if_pos hle] at h
      injection h with h1
      injection h1 with hd hb
      subst hd
      omega
    · rw [if_neg hle] at h
      cases hu1 : b.uint with
      | error e => simp only [hu1, errBind] at h; exact Except.noConfusion h
      | ok p1 =>
        obtain ⟨deflen, b1⟩ := p1
        cases hu2 : b1.uint with
        | error e => simp only [hu1, okBind, hu2, errBind] at h; exact Except.noConfusion h
        | ok p2 =>
          obtain ⟨inflen, b2⟩ := p2
          cases hrd : b2.readBytes deflen with
          | error e => simp only [hu1, okBind, hu2, hrd, errBind] at h; exact Except.noConfusion h
          | ok p3 =>
            obtain ⟨comp, b3⟩ := p3
            simp only [hu1, okBind, hu2, hrd] at h
            exact ih b3 (acc ++ dec comp) data b' h

/-- When the chunk stream at `b` decomposes with decompressed lengths
summing exactly to the remaining size, the loop recovers exactly the
declared number of bytes. -/
theorem chunksSum_exact (dec : List Nat → List Nat) :
    ∀ (b : Buffer) (n : Nat), ChunksSum dec b n →
    ∀ (size fuel : Nat) (acc data : List Nat) (b' : Buffer),
    size = acc.length + n → readChunks dec size fuel b acc = .ok (data, b') →
    data.length = size := by
  intro b n hsum
  induction hsum with
  | zero b0 =>
    intro size fuel acc data b' hsz h
    cases fuel with
    | zero =>
      rw [readChunks, if_pos (by omega)] at h
      injection h with h1
      injection h1 with hd hb
      subst hd
      omega
    | succ f =>
      rw [readChunks, if_pos (by omega)] at h
      injection h with h1
      injection h1 with hd hb
      subst hd
      omega
  | more b0 b1 b2 b3 deflen inflen comp rest hu1 hu2 hrd _ ih =>
    intro size fuel acc data b' hsz h
    by_cases hle : size ≤ acc.length
    · cases fuel with
      | zero =>
        rw [readChunks, if_pos hle] at h
        injection h with h1
        injection h1 with hd hb
        subst hd
        omega
      | succ f =>
        rw [readChunks, if_pos hle] at h
        injection h with h1
        injection h1 with hd hb
        subst hd
        omega
    · cases fuel with
      | zero =>
        rw [readChunks, if_neg hle] at h
        exact Except.noConfusion h
      | succ f =>
        rw [readChunks, if_neg hle] at h
        simp only [hu1, okBind, hu2, hrd] at h
        refine ih size f (acc ++ dec comp) data b' ?_ h
        simp only [List.length_append]
        omega

/-- C4 amended: the chunk loop accumulates independently decompressed chunks
until the accumulated length reaches (or exceeds) the entry's declared
`totalSize`; it performs no check of any chunk's stated decompressed length,
and the recovered length equals `totalSize` exactly when the chunk stream's
actual decompressed lengths sum to `totalSize`. -/
theorem readChunks_totalSize (dec : List Nat → List Nat) (size fuel : Nat)
    (b b' : Buffer) (data : List Nat)
    (h : readChunks dec size fuel b [] = .ok (data, b')) :
    size ≤ data.length ∧
    (∀ n, ChunksSum dec b n → n = size → data.length = size) := by
  refine ⟨readChunks_ok_length dec size fuel b [] data b' h, ?_⟩
  intro n hsum hn
  exact chunksSum_exact dec b n hsum size fuel [] data b' (by simpa using hn.symm) h

set_option maxHeartbeats 1000000 in
/-- Witness for C4's amended theorem: two chunks of decompressed lengths 2
and 1 recover exactly the declared 3 bytes. -/
theorem readChunks_totalSize_witness :
    (3 ≤ ([7, 8, 9] : List Nat).length) ∧ ([7, 8, 9] : List Nat).length = 3 := by
  have harch : readChunks id 3 20
      ⟨[2, 0, 0, 0, 2, 0, 0, 0, 7, 8, 1, 0, 0, 0, 1, 0, 0, 0, 9], 0⟩ [] =
      .ok ([7, 8, 9], ⟨[2, 0, 0, 0, 2, 0, 0, 0, 7, 8, 1, 0, 0, 0, 1, 0, 0, 0, 9], 19⟩) := by
    simp [readChunks, Buffer.uint, Buffer.readBytes, leWord]
  have h := readChunks_totalSize id 3 20
    ⟨[2, 0, 0, 0, 2, 0, 0, 0, 7, 8, 1, 0, 0, 0, 1, 0, 0, 0, 9], 0⟩
    ⟨[2, 0, 0, 0, 2, 0, 0, 0, 7, 8, 1, 0, 0, 0, 1, 0, 0, 0, 9], 19⟩ [7, 8, 9] harch
  refine ⟨h.1, h.2 3 ?_ rfl⟩
  have h0 : ChunksSum id
      ⟨[2, 0, 0, 0, 2, 0, 0, 0, 7, 8, 1, 0, 0, 0, 1, 0, 0, 0, 9], 19⟩ 0 :=
    ChunksSum.zero _
  have hc1 : ChunksSum id
      ⟨[2, 0, 0, 0, 2, 0, 0, 0, 7, 8, 1, 0, 0, 0, 1, 0, 0, 0, 9], 10⟩ 1 := by
    have h1 := ChunksSum.more
      ⟨[2, 0, 0, 0, 2, 0, 0, 0, 7, 8, 1, 0, 0, 0, 1, 0, 0, 0, 9], 10⟩
      ⟨[2, 0, 0, 0, 2, 0, 0, 0, 7, 8, 1, 0, 0, 0, 1, 0, 0, 0, 9], 14⟩
      ⟨[2, 0, 0, 0, 2, 0, 0, 0, 7, 8, 1, 0, 0, 0, 1, 0, 0, 0, 9], 18⟩
      ⟨[2, 0, 0, 0, 2, 0, 0, 0, 7, 8, 1, 0, 0, 0, 1, 0, 0, 0, 9], 19⟩
      1 1 [9] 0
      (by simp [Buffer.uint, Buffer.readBytes, leWord])
      (by simp [Buffer.uint, Buffer.readBytes, leWord])
      (by simp [Buffer.readBytes])
      h0
    simpa using h1
  have hc2 := ChunksSum.more
    ⟨[2, 0, 0, 0, 2, 0, 0, 0, 7, 8, 1, 0, 0, 0, 1, 0, 0, 0, 9], 0⟩
    ⟨[2, 0, 0, 0, 2, 0, 0, 0, 7, 8, 1, 0, 0, 0, 1, 0, 0, 0, 9], 4⟩
    ⟨[2, 0, 0, 0, 2, 0, 0, 0, 7, 8, 1, 0, 0, 0, 1, 0, 0, 0, 9], 8⟩
    ⟨[2, 0, 0, 0, 2, 0, 0, 0, 7, 8, 1, 0, 0, 0, 1, 0, 0, 0, 9], 10⟩
    2 2 [7, 8] 1
    (by simp [Buffer.uint, Buffer.readBytes, leWord])
    (by simp [Buffer.uint, Buffer.readBytes, leWord])
    (by simp [Buffer.readBytes])
    hc1
  simpa using hc2

/-- A successful chunk walk is insensitive to extra fuel. -/
theorem readChunks_fuel_mono (dec : List Nat → List Nat) (size : Nat) :
    ∀ (f1 f2 : Nat) (b : Buffer) (acc : List Nat) (r : List Nat × Buffer),
    readChunks dec size f1 b acc = .ok r → f1 ≤ f2 →
    readChunks dec size f2 b acc = .ok r := by
  intro f1
  induction f1 with
  | zero =>
    intro f2 b acc r h hle
    rw [readChunks] at h
    by_cases hsz : size ≤ acc.length
    · rw [if_pos hsz] at h
      cases f2 with
      | zero => rw [readChunks, if_pos hsz]; exact h
      | succ g2 => rw [readChunks, if_pos hsz]; exact h
    · rw [if_neg hsz] at h
      exact Except.noConfusion h
  | succ g ih =>
    intro f2 b acc r h hle
    by_cases hsz : size ≤ acc.length
    · rw [readChunks, if_pos hsz] at h
      cases f2 with
      | zero => rw [readChunks, if_pos hsz]; exact h
      | succ g2 => rw [readChunks, if_pos hsz]; exact h
    · rw [readChunks, if_neg hsz] at h
      cases f2 with
      | zero => exact absurd hle (by omega)
      | succ g2 =>
        rw [readChunks, if_neg hsz]
        cases hu1 : b.uint with
        | error e => simp only [hu1, errBind] at h; exact Except.noConfusion h
        | ok p1 =>
          obtain ⟨deflen, b1⟩ := p1
          cases hu2 : b1.uint with
          | error e =>
            simp only [hu1, okBind, hu2, errBind] at h
            exact Except.noConfusion h
          | ok p2 =>
            obtain ⟨inflen, b2⟩ := p2
            cases hrd : b2.readBytes deflen with
            | error e =>
              simp only [hu1, okBind, hu2, hrd, errBind] at h
              exact Except.noConfusion h
            | ok p3 =>
              obtain ⟨comp, b3⟩ := p3
              simp only [hu1, okBind, hu2, hrd] at h
              simp only [hu1, okBind, hu2, hrd]
              exact ih g2 b3 (acc ++ dec comp) r h (by omega)

/-- A complete two-entry archive: one data file whose single chunk declares
decompressed length 99 but actually decompresses (under `id`) to 4 bytes, and
the sentinel directory entry naming that file "B". -/
def c4arch : List Nat :=
  le32 37 ++ [80, 70, 83, 32] ++
  (le32 4 ++ le32 99 ++ [1, 2, 3, 4]) ++
  (le32 9 ++ le32 9 ++ (le32 1 ++ le32 1 ++ [66])) ++
  le32 2 ++ (le32 7 ++ le32 8 ++ le32 4) ++ (le32 SENTINEL_CRC ++ le32 20 ++ le32 9)

/-- The fully evaluated byte list of `c4arch`. -/
theorem c4arch_eq : c4arch = [37, 0, 0, 0, 80, 70, 83, 32, 4, 0, 0, 0, 99, 0, 0, 0,
    1, 2, 3, 4, 9, 0, 0, 0, 9, 0, 0, 0, 1, 0, 0, 0, 1, 0, 0, 0, 66,
    2, 0, 0, 0, 7, 0, 0, 0, 8, 0, 0, 0, 4, 0, 0, 0, 201, 10, 88, 97,
    20, 0, 0, 0, 9, 0, 0, 0] := rfl

set_option maxHeartbeats 4000000 in
set_option maxRecDepth 4096 in
/-- C4 counterexample: the file's only chunk states decompressed length 99
while decompression actually yields 4 bytes — "the stated decompressed
length is not reached" — yet `readS3D` raises no error at all and happily
returns the file, because the `inflen` word is read and discarded
(s3d.py line 21). -/
theorem readS3D_ignores_chunk_inflen :
    readS3D id c4arch = .ok [("b", [1, 2, 3, 4])] ∧
    (Buffer.mk c4arch 12).uint = .ok (99, Buffer.mk c4arch 16) ∧
    (id [1, 2, 3, 4] : List Nat).length = 4 ∧ (4 : Nat) ≠ 99 := by
  have hlen : c4arch.length = 65 := by rw [c4arch_eq]; rfl
  have hu0 : (Buffer.mk c4arch 0).uint = .ok (37, Buffer.mk c4arch 4) := by
    rw [c4arch_eq]; simp [Buffer.uint, Buffer.readBytes, leWord, SENTINEL_CRC]
  have hu8 : (Buffer.mk c4arch 8).uint = .ok (4, Buffer.mk c4arch 12) := by
    rw [c4arch_eq]; simp [Buffer.uint, Buffer.readBytes, leWord, SENTINEL_CRC]
  have hu12 : (Buffer.mk c4arch 12).uint = .ok (99, Buffer.mk c4arch 16) := by
    rw [c4arch_eq]; simp [Buffer.uint, Buffer.readBytes, leWord, SENTINEL_CRC]
  have hu20 : (Buffer.mk c4arch 20).uint = .ok (9, Buffer.mk c4arch 24) := by
    rw [c4arch_eq]; simp [Buffer.uint, Buffer.readBytes, leWord, SENTINEL_CRC]
  have hu24 : (Buffer.mk c4arch 24).uint = .ok (9, Buffer.mk c4arch 28) := by
    rw [c4arch_eq]; simp [Buffer.uint, Buffer.readBytes, leWord, SENTINEL_CRC]
  have hu37 : (Buffer.mk c4arch 37).uint = .ok (2, Buffer.mk c4arch 41) := by
    rw [c4arch_eq]; simp [Buffer.uint, Buffer.readBytes, leWord, SENTINEL_CRC]
  have hu41 : (Buffer.mk c4arch 41).uint = .ok (7, Buffer.mk c4arch 45) := by
    rw [c4arch_eq]; simp [Buffer.uint, Buffer.readBytes, leWord, SENTINEL_CRC]
  have hu45 : (Buffer.mk c4arch 45).uint = .ok (8, Buffer.mk c4arch 49) := by
    rw [c4arch_eq]; simp [Buffer.uint, Buffer.readBytes, leWord, SENTINEL_CRC]
  have hu49 : (Buffer.mk c4arch 49).uint = .ok (4, Buffer.mk c4arch 53) := by
    rw [c4arch_eq]; simp [Buffer.uint, Buffer.readBytes, leWord, SENTINEL_CRC]
  have hu53 : (Buffer.mk c4arch 53).uint = .ok (SENTINEL_CRC, Buffer.mk c4arch 57) := by
    rw [c4arch_eq]; simp [Buffer.uint, Buffer.readBytes, leWord, SENTINEL_CRC]
  have hu57 : (Buffer.mk c4arch 57).uint = .ok (20, Buffer.mk c4arch 61) := by
    rw [c4arch_eq]; simp [Buffer.uint, Buffer.readBytes, leWord, SENTINEL_CRC]
  have hu61 : (Buffer.mk c4arch 61).uint = .ok (9, Buffer.mk c4arch 65) := by
    rw [c4arch_eq]; simp [Buffer.uint, Buffer.readBytes, leWord, SENTINEL_CRC]
  have hr4 : (Buffer.mk c4arch 4).readBytes 4 = .ok ([80, 70, 83, 32], Buffer.mk c4arch 8) := by
    rw [c4arch_eq]; simp [Buffer.readBytes]
  have hr16 : (Buffer.mk c4arch 16).readBytes 4 = .ok ([1, 2, 3, 4], Buffer.mk c4arch 20) := by
    rw [c4arch_eq]; simp [Buffer.readBytes]
  have hr28 : (Buffer.mk c4arch 28).readBytes 9 = .ok ([1, 0, 0, 0, 1, 0, 0, 0, 66], Buffer.mk c4arch 37) := by
    rw [c4arch_eq]; simp [Buffer.readBytes]
  have hch1 : readChunks id 4 66 (Buffer.mk c4arch 8) [] =
      .ok ([1, 2, 3, 4], Buffer.mk c4arch 20) := by
    refine readChunks_fuel_mono id 4 2 66 _ _ _ ?_ (by omega)
    simp [readChunks, hu8, hu12, hr16]
  have hch2 : readChunks id 9 66 (Buffer.mk c4arch 20) [] =
      .ok ([1, 0, 0, 0, 1, 0, 0, 0, 66], Buffer.mk c4arch 37) := by
    refine readChunks_fuel_mono id 9 2 66 _ _ _ ?_ (by omega)
    simp [readChunks, hu20, hu24, hr28]
  have hents : readEntries id (Buffer.mk c4arch 0) 37 0 2 =
      .ok [(7, 8, [1, 2, 3, 4]), (SENTINEL_CRC, 20, [1, 0, 0, 0, 1, 0, 0, 0, 66])] := by
    simp [readEntries, Buffer.seek, hlen, hu41, hu45, hu49, hu53, hu57,
      hu61, hch1, hch2]
  have hasm : assembleFiles [(7, 8, [1, 2, 3, 4]),
      (SENTINEL_CRC, 20, [1, 0, 0, 0, 1, 0, 0, 0, 66])] = .ok [("b", [1, 2, 3, 4])] := by
    simp [assembleFiles, splitEntries, sortByOff, insertByOff, nameFiles, dictInsert,
      decodeName, stripNulBytes, pyLower, Buffer.uint, Buffer.readBytes, leWord,
      SENTINEL_CRC]
    try rfl
  refine ⟨?_, hu12, by simp, by decide⟩
  rw [readS3D]
  simp only [hu0, okBind, hr4, Buffer.seek, hu37, hents, hasm]
  norm_num

/-- The filenames the directory blob yields for `n` files: the same reads
`nameFiles` performs, keeping only the decoded (not yet lowercased) names.
Used to state which archives carry duplicate filenames. -/
def namesRead : Buffer → Nat → Except PyErr (List String × Buffer)
  | b, 0 => .ok ([], b)
  | b, n + 1 => do
    let (len, b1) ← b.uint
    let (raw, b2) ← b1.readBytes len
    let rest ← namesRead b2 n
    .ok (decodeName (stripNulBytes raw) :: rest.1, rest.2)

/-- Every element the split appends to the file list comes from a
non-sentinel entry. -/
theorem splitEntries_snd_mem :
    ∀ (es : List (Nat × Nat × List Nat)) (dir : Option (List Nat))
      (fl : List (Nat × List Nat)) (x : Nat × List Nat),
    x ∈ (splitEntries es dir fl).2 →
    x ∈ fl ∨ ∃ e ∈ es, e.1 ≠ SENTINEL_CRC ∧ x = (e.2.1, e.2.2) := by
  intro es
  induction es with
  | nil =>
    intro dir fl x hx
    exact Or.inl hx
  | cons e es ih =>
    intro dir fl x hx
    obtain ⟨crc, foff, data⟩ := e
    by_cases hs : crc = SENTINEL_CRC
    · rw [splitEntries, if_pos hs] at hx
      rcases ih _ _ _ hx with h | ⟨e', he', hne, hxe⟩
      · exact Or.inl h
      · exact Or.inr ⟨e', List.mem_cons_of_mem _ he', hne, hxe⟩
    · rw [splitEntries, if_neg hs] at hx
      rcases ih _ _ _ hx with h | ⟨e', he', hne, hxe⟩
      · rcases List.mem_append.mp h with h' | h'
        · exact Or.inl h'
        · rcases List.mem_singleton.mp h' with rfl
          exact Or.inr ⟨(crc, foff, data), List.mem_cons_self _ _, hs, rfl⟩
      · exact Or.inr ⟨e', List.mem_cons_of_mem _ he', hne, hxe⟩

/-- The split's file list grows by exactly the number of non-sentinel
entries. -/
theorem splitEntries_length :
    ∀ (es : List (Nat × Nat × List Nat)) (dir : Option (List Nat))
      (fl : List (Nat × List Nat)),
    (splitEntries es dir fl).2.length +
      (es.filter (fun e => e.1 = SENTINEL_CRC)).length = fl.length + es.length := by
  intro es
  induction es with
  | nil => intro dir fl; simp [splitEntries]
  | cons e es ih =>
    intro dir fl
    obtain ⟨crc, foff, data⟩ := e
    by_cases hs : crc = SENTINEL_CRC
    · rw [splitEntries, if_pos hs]
      have h2 := ih (some data) fl
      simp only [List.filter_cons]
      simp [hs]
      omega
    · rw [splitEntries, if_neg hs]
      have h2 := ih dir (fl ++ [(foff, data)])
      simp only [List.length_append, List.length_cons, List.length_nil] at h2
      simp only [List.filter_cons]
      simp [hs]
      omega

/-- Stable insertion adds one element. -/
theorem insertByOff_length (x : Nat × List Nat) :
    ∀ (l : List (Nat × List Nat)), (insertByOff x l).length = l.length + 1 := by
  intro l
  induction l with
  | nil => rfl
  | cons y ys ih =>
    rw [insertByOff]
    by_cases hc : x.1 < y.1
    · rw [if_pos hc]; simp
    · rw [if_neg hc]; simp [ih]

/-- Sorting preserves length. -/
theorem sortByOff_length : ∀ (l : List (Nat × List Nat)),
    (sortByOff l).length = l.length := by
  intro l
  induction l with
  | nil => rfl
  | cons x xs ih =>
    show (insertByOff x (sortByOff xs)).length = xs.length + 1
    rw [insertByOff_length, ih]

/-- Stable insertion introduces no new elements. -/
theorem insertByOff_mem (x y : Nat × List Nat) :
    ∀ (l : List (Nat × List Nat)), y ∈ insertByOff x l → y = x ∨ y ∈ l := by
  intro l
  induction l with
  | nil =>
    intro hy
    rcases List.mem_singleton.mp hy with rfl
    exact Or.inl rfl
  | cons z zs ih =>
    intro hy
    rw [insertByOff] at hy
    by_cases hc : x.1 < z.1
    · rw [if_pos hc] at hy
      rcases List.mem_cons.mp hy with rfl | hy'
      · exact Or.inl rfl
      · exact Or.inr hy'
    · rw [if_neg hc] at hy
      rcases List.mem_cons.mp hy with rfl | hy'
      · exact Or.inr (List.mem_cons_self _ _)
      · rcases ih hy' with h | h
        · exact Or.inl h
        · exact Or.inr (List.mem_cons_of_mem _ h)

/-- Sorting introduces no new elements. -/
theorem sortByOff_mem (y : Nat × List Nat) : ∀ (l : List (Nat × List Nat)),
    y ∈ sortByOff l → y ∈ l := by
  intro l
  induction l with
  | nil => intro hy; exact absurd hy (List.not_mem_nil y)
  | cons x xs ih =>
    intro hy
    rcases insertByOff_mem x y (sortByOff xs) hy with rfl | hy'
    · exact List.mem_cons_self _ _
    · exact List.mem_cons_of_mem _ (ih hy')

/-- Inserting an absent key appends. -/
theorem dictInsert_absent (m : List (String × List Nat)) (k : String) (v : List Nat)
    (h : m.any (fun kv => kv.1 = k) = false) : dictInsert m k v = m ++ [(k, v)] := by
  simp only [dictInsert, h]
  simp

/-- Membership after an insertion: the element was present or is the
inserted binding. -/
theorem dictInsert_mem (m : List (String × List Nat)) (k : String) (v : List Nat)
    (kv : String × List Nat) (h : kv ∈ dictInsert m k v) : kv ∈ m ∨ kv = (k, v) := by
  by_cases ha : m.any (fun kv => kv.1 = k) = true
  · simp only [dictInsert, ha, if_true] at h
    rcases List.mem_map.mp h with ⟨kv', hkv', heq⟩
    by_cases he : kv'.1 = k
    · rw [if_pos he] at heq
      exact Or.inr heq.symm
    · rw [if_neg he] at heq
      exact Or.inl (heq ▸ hkv')
  · have ha' : m.any (fun kv => kv.1 = k) = false := by
      cases hh : m.any (fun kv => kv.1 = k)
      · rfl
      · exact absurd hh ha
    rw [dictInsert_absent m k v ha'] at h
    rcases List.mem_append.mp h with h' | h'
    · exact Or.inl h'
    · exact Or.inr (List.mem_singleton.mp h')

/-- Folding the dict-insert over pairs whose keys are distinct and disjoint
from the accumulated map appends every pair. -/
theorem dictFold_length :
    ∀ (pairs : List (String × List Nat)) (m : List (String × List Nat)),
    (pairs.map Prod.fst).Nodup →
    (∀ p ∈ pairs, m.any (fun kv => kv.1 = p.1) = false) →
    (pairs.foldl (fun m kv => dictInsert m kv.1 kv.2) m).length =
      m.length + pairs.length := by
  intro pairs
  induction pairs with
  | nil => intro m _ _; simp
  | cons p t ih =>
    intro m hnd hdis
    obtain ⟨k, v⟩ := p
    have hm : m.any (fun kv => kv.1 = k) = false := hdis (k, v) (List.mem_cons_self _ _)
    have hstep : dictInsert m k v = m ++ [(k, v)] := dictInsert_absent m k v hm
    simp only [List.foldl_cons, hstep]
    have hnd' : (t.map Prod.fst).Nodup := (List.nodup_cons.mp hnd).2
    have hk : k ∉ t.map Prod.fst := by
      have := (List.nodup_cons.mp hnd).1
      simpa using this
    have hdis' : ∀ q ∈ t, (m ++ [(k, v)]).any (fun kv => kv.1 = q.1) = false := by
      intro q hq
      rw [List.any_append]
      have h1 : m.any (fun kv => kv.1 = q.1) = false := hdis q (List.mem_cons_of_mem _ hq)
      have h2 : ([(k, v)].any (fun kv => kv.1 = q.1)) = false := by
        simp only [List.any_cons, List.any_nil, Bool.or_false, decide_eq_false_iff_not]
        intro hkq
        exact hk (hkq ▸ List.mem_map.mpr ⟨q, hq, rfl⟩)
      rw [h1, h2]
      rfl
    have := ih (m ++ [(k, v)]) hnd' hdis'
    simp only [List.length_append, List.length_cons, List.length_nil] at this ⊢
    omega

/-- Values in the folded dict come from the accumulated map or from the
pairs. -/
theorem dictFold_mem :
    ∀ (pairs : List (String × List Nat)) (m : List (String × List Nat))
      (kv : String × List Nat),
    kv ∈ pairs.foldl (fun m kv => dictInsert m kv.1 kv.2) m →
    kv ∈ m ∨ ∃ p ∈ pairs, kv.2 = p.2 := by
  intro pairs
  induction pairs with
  | nil => intro m kv h; exact Or.inl h
  | cons p t ih =>
    intro m kv h
    simp only [List.foldl_cons] at h
    rcases ih (dictInsert m p.1 p.2) kv h with h' | ⟨q, hq, hv⟩
    · rcases dictInsert_mem m p.1 p.2 kv h' with h'' | rfl
      · exact Or.inl h''
      · exact Or.inr ⟨p, List.mem_cons_self _ _, rfl⟩
    · exact Or.inr ⟨q, List.mem_cons_of_mem _ hq, hv⟩

/-- `nameFiles` is the dict-fold of the names `namesRead` recovers, reading
the same stream. -/
theorem nameFiles_namesRead :
    ∀ (datas : List (List Nat)) (b : Buffer) (files0 : List (String × List Nat))
      (b' : Buffer) (files : List (String × List Nat)),
    nameFiles b datas files0 = .ok (b', files) →
    ∃ names, namesRead b datas.length = .ok (names, b') ∧
      names.length = datas.length ∧
      files = (List.zip (names.map pyLower) datas).foldl
        (fun m kv => dictInsert m kv.1 kv.2) files0 := by
  intro datas
  induction datas with
  | nil =>
    intro b files0 b' files h
    rw [nameFiles] at h
    injection h with h1
    injection h1 with hb hf
    subst hb
    subst hf
    exact ⟨[], rfl, rfl, rfl⟩
  | cons data rest ih =>
    intro b files0 b' files h
    rw [nameFiles] at h
    cases hu : b.uint with
    | error e => simp only [hu, errBind] at h; exact Except.noConfusion h
    | ok p1 =>
      obtain ⟨len, b1⟩ := p1
      cases hrb : b1.readBytes len with
      | error e =>
        simp only [hu, okBind, hrb, errBind] at h
        exact Except.noConfusion h
      | ok p2 =>
        obtain ⟨raw, b2⟩ := p2
        simp only [hu, okBind, hrb] at h
        rcases ih b2 _ b' files h with ⟨names, hns, hlen, hfold⟩
        refine ⟨decodeName (stripNulBytes raw) :: names, ?_, by simp [hlen], ?_⟩
        · simp only [List.length_cons]
          rw [namesRead]
          simp only [hu, okBind, hrb, hns]
        · simp only [List.map_cons, List.zip_cons_cons, List.foldl_cons]
          exact hfold

/-- A successful 32-bit read advances the cursor by exactly 4. -/
theorem uint_ok_parts (b : Buffer) (v : Nat) (b' : Buffer) (h : b.uint = .ok (v, b')) :
    b' = ⟨b.data, b.pos + 4⟩ := by
  simp only [Buffer.uint, Buffer.readBytes] at h
  split at h
  · simp only [okBind] at h
    injection h with h1
    injection h1 with hv hb
    exact hb.symm
  · simp only [errBind] at h
    exact Except.noConfusion h

/-- C6 amended: for an archive whose entry table carries exactly one entry
with the reserved directory checksum, every file in the returned mapping
takes its data from a non-sentinel entry (the directory entry itself never
appears), and the mapping holds exactly `count − 1` files provided the
directory's lowercased filenames are pairwise distinct — duplicate
filenames collapse into one mapping slot, yielding fewer. -/
theorem assembleFiles_directory_exclusion (entries : List (Nat × Nat × List Nat))
    (files : List (String × List Nat))
    (hok : assembleFiles entries = .ok files)
    (hone : (entries.filter (fun e => e.1 = SENTINEL_CRC)).length = 1) :
    (∀ kv ∈ files, ∃ e ∈ entries, e.1 ≠ SENTINEL_CRC ∧ kv.2 = e.2.2) ∧
    ∃ dir names b2,
      (splitEntries entries none []).1 = some dir ∧
      namesRead (Buffer.mk dir 4) (sortByOff (splitEntries entries none []).2).length =
        .ok (names, b2) ∧
      ((names.map pyLower).Nodup → files.length = entries.length - 1) := by
  rcases hsp : splitEntries entries none [] with ⟨dirOpt, filelist0⟩
  simp only [assembleFiles, hsp] at hok
  cases dirOpt with
  | none => exact Except.noConfusion hok
  | some dir =>
    cases hu : (Buffer.mk dir 0).uint with
    | error e =>
      simp only [hu, errBind] at hok
      exact Except.noConfusion hok
    | ok p =>
      obtain ⟨dcount, b1⟩ := p
      have hb1 : b1 = ⟨dir, 4⟩ := by
        have := uint_ok_parts _ _ _ hu
        simpa using this
      subst hb1
      simp only [hu, okBind] at hok
      by_cases hcnt : dcount = (sortByOff filelist0).length
      · rw [if_pos hcnt] at hok
        cases hnf : nameFiles ⟨dir, 4⟩ ((sortByOff filelist0).map (·.2)) [] with
        | error e =>
          simp only [hnf, errBind] at hok
          exact Except.noConfusion hok
        | ok p2 =>
          obtain ⟨b2, files2⟩ := p2
          simp only [hnf, okBind] at hok
          injection hok with hfe
          subst hfe
          rcases nameFiles_namesRead _ _ _ _ _ hnf with ⟨names, hns, hlen, hfold⟩
          constructor
          · intro kv hkv
            rw [hfold] at hkv
            rcases dictFold_mem _ _ _ hkv with h0 | ⟨p, hp, hv⟩
            · exact absurd h0 (List.not_mem_nil kv)
            · obtain ⟨pk, pv⟩ := p
              have hpv : pv ∈ (sortByOff filelist0).map (·.2) := (List.of_mem_zip hp).2
              rcases List.mem_map.mp hpv with ⟨q, hq, hq2⟩
              have hq0 : q ∈ filelist0 := sortByOff_mem q filelist0 hq
              have hq1 : q ∈ (splitEntries entries none []).2 := by
                rw [hsp]
                exact hq0
              rcases splitEntries_snd_mem entries none [] q hq1 with h' | ⟨e, he, hne, hqe⟩
              · exact absurd h' (List.not_mem_nil q)
              · refine ⟨e, he, hne, ?_⟩
                rw [hv]
                show pv = e.2.2
                rw [← hq2, hqe]
          · refine ⟨dir, names, b2, rfl, ?_, ?_⟩
            · show namesRead ⟨dir, 4⟩ (sortByOff filelist0).length = .ok (names, b2)
              rw [← List.length_map (sortByOff filelist0) (·.2)]
              exact hns
            · intro hnd
              have hkeys : (List.zip (names.map pyLower)
                  ((sortByOff filelist0).map (·.2))).map Prod.fst = names.map pyLower := by
                apply List.map_fst_zip
                simp [hlen]
              have hnd2 : ((List.zip (names.map pyLower)
                  ((sortByOff filelist0).map (·.2))).map Prod.fst).Nodup := by
                rw [hkeys]
                exact hnd
              have hflen := dictFold_length _ [] hnd2 (fun p _ => rfl)
              rw [hfold, hflen]
              have hziplen : (List.zip (names.map pyLower)
                  ((sortByOff filelist0).map (·.2))).length =
                  (sortByOff filelist0).length := by
                rw [List.length_zip]
                simp [hlen]
              have hsl := sortByOff_length filelist0
              have hspl := splitEntries_length entries none []
              rw [hsp] at hspl
              simp only [List.length_nil] at hspl
              rw [hone] at hspl
              simp only [List.length_nil, hziplen]
              omega
      · rw [if_neg hcnt] at hok
        exact Except.noConfusion hok

/-- The three-entry archive for C6: files at offsets 8 and 17 (one byte
each), directory blob at 26 naming BOTH files `A`, table at 48 declaring 3
entries of which exactly one carries the reserved checksum. -/
def c6arch : List Nat :=
  le32 48 ++ [80, 70, 83, 32] ++
  (le32 1 ++ le32 1 ++ [88]) ++
  (le32 1 ++ le32 1 ++ [89]) ++
  (le32 14 ++ le32 14 ++ (le32 2 ++ le32 1 ++ [65] ++ le32 1 ++ [65])) ++
  le32 3 ++ (le32 1 ++ le32 8 ++ le32 1) ++ (le32 2 ++ le32 17 ++ le32 1) ++
  (le32 SENTINEL_CRC ++ le32 26 ++ le32 14)

/-- The fully evaluated byte list of `c6arch`. -/
theorem c6arch_eq : c6arch = [48, 0, 0, 0, 80, 70, 83, 32, 1, 0, 0, 0, 1, 0, 0, 0, 88, 1, 0, 0, 0, 1, 0, 0, 0, 89, 14, 0, 0, 0, 14, 0, 0, 0, 2, 0, 0, 0, 1, 0, 0, 0, 65, 1, 0, 0, 0, 65, 3, 0, 0, 0, 1, 0, 0, 0, 8, 0, 0, 0, 1, 0, 0, 0, 2, 0, 0, 0, 17, 0, 0, 0, 1, 0, 0, 0, 201, 10, 88, 97, 26, 0, 0, 0, 14, 0, 0, 0] := rfl

set_option maxHeartbeats 4000000 in
set_option maxRecDepth 4096 in
/-- C6 counterexample: the directory declares 3 entries, exactly one of
which carries the reserved checksum, but the two recovered files share the
lowercase name `a`, so the second overwrites the first and the returned
mapping holds 1 file, not `count − 1 = 2`. -/
theorem readS3D_duplicate_names :
    readS3D id c6arch = .ok [("a", [89])] ∧
    readEntries id (Buffer.mk c6arch 0) 48 0 3 =
      .ok [(1, 8, [88]), (2, 17, [89]), (SENTINEL_CRC, 26, [2, 0, 0, 0, 1, 0, 0, 0, 65, 1, 0, 0, 0, 65])] ∧
    (([(1, 8, [88]), (2, 17, [89]),
        (SENTINEL_CRC, 26, [2, 0, 0, 0, 1, 0, 0, 0, 65, 1, 0, 0, 0, 65])].filter
        (fun e => e.1 = SENTINEL_CRC)).length = 1) ∧
    ([("a", [89])] : List (String × List Nat)).length ≠ 3 - 1 := by
  have hlen6 : c6arch.length = 88 := by rw [c6arch_eq]; rfl
  have gu0 : (Buffer.mk c6arch 0).uint = .ok (48, Buffer.mk c6arch 4) := by
    rw [c6arch_eq]; simp [Buffer.uint, Buffer.readBytes, leWord, SENTINEL_CRC]
  have gu8 : (Buffer.mk c6arch 8).uint = .ok (1, Buffer.mk c6arch 12) := by
    rw [c6arch_eq]; simp [Buffer.uint, Buffer.readBytes, leWord, SENTINEL_CRC]
  have gu12 : (Buffer.mk c6arch 12).uint = .ok (1, Buffer.mk c6arch 16) := by
    rw [c6arch_eq]; simp [Buffer.uint, Buffer.readBytes, leWord, SENTINEL_CRC]
  have gu17 : (Buffer.mk c6arch 17).uint = .ok (1, Buffer.mk c6arch 21) := by
    rw [c6arch_eq]; simp [Buffer.uint, Buffer.readBytes, leWord, SENTINEL_CRC]
  have gu21 : (Buffer.mk c6arch 21).uint = .ok (1, Buffer.mk c6arch 25) := by
    rw [c6arch_eq]; simp [Buffer.uint, Buffer.readBytes, leWord, SENTINEL_CRC]
  have gu26 : (Buffer.mk c6arch 26).uint = .ok (14, Buffer.mk c6arch 30) := by
    rw [c6arch_eq]; simp [Buffer.uint, Buffer.readBytes, leWord, SENTINEL_CRC]
  have gu30 : (Buffer.mk c6arch 30).uint = .ok (14, Buffer.mk c6arch 34) := by
    rw [c6arch_eq]; simp [Buffer.uint, Buffer.readBytes, leWord, SENTINEL_CRC]
  have gu48 : (Buffer.mk c6arch 48).uint = .ok (3, Buffer.mk c6arch 52) := by
    rw [c6arch_eq]; simp [Buffer.uint, Buffer.readBytes, leWord, SENTINEL_CRC]
  have gu52 : (Buffer.mk c6arch 52).uint = .ok (1, Buffer.mk c6arch 56) := by
    rw [c6arch_eq]; simp [Buffer.uint, Buffer.readBytes, leWord, SENTINEL_CRC]
  have gu56 : (Buffer.mk c6arch 56).uint = .ok (8, Buffer.mk c6arch 60) := by
    rw [c6arch_eq]; simp [Buffer.uint, Buffer.readBytes, leWord, SENTINEL_CRC]
  have gu60 : (Buffer.mk c6arch 60).uint = .ok (1, Buffer.mk c6arch 64) := by
    rw [c6arch_eq]; simp [Buffer.uint, Buffer.readBytes, leWord, SENTINEL_CRC]
  have gu64 : (Buffer.mk c6arch 64).uint = .ok (2, Buffer.mk c6arch 68) := by
    rw [c6arch_eq]; simp [Buffer.uint, Buffer.readBytes, leWord, SENTINEL_CRC]
  have gu68 : (Buffer.mk c6arch 68).uint = .ok (17, Buffer.mk c6arch 72) := by
    rw [c6arch_eq]; simp [Buffer.uint, Buffer.readBytes, leWord, SENTINEL_CRC]
  have gu72 : (Buffer.mk c6arch 72).uint = .ok (1, Buffer.mk c6arch 76) := by
    rw [c6arch_eq]; simp [Buffer.uint, Buffer.readBytes, leWord, SENTINEL_CRC]
  have gu76 : (Buffer.mk c6arch 76).uint = .ok (SENTINEL_CRC, Buffer.mk c6arch 80) := by
    rw [c6arch_eq]; simp [Buffer.uint, Buffer.readBytes, leWord, SENTINEL_CRC]
  have gu80 : (Buffer.mk c6arch 80).uint = .ok (26, Buffer.mk c6arch 84) := by
    rw [c6arch_eq]; simp [Buffer.uint, Buffer.readBytes, leWord, SENTINEL_CRC]
  have gu84 : (Buffer.mk c6arch 84).uint = .ok (14, Buffer.mk c6arch 88) := by
    rw [c6arch_eq]; simp [Buffer.uint, Buffer.readBytes, leWord, SENTINEL_CRC]
  have gr4 : (Buffer.mk c6arch 4).readBytes 4 = .ok ([80, 70, 83, 32], Buffer.mk c6arch 8) := by
    rw [c6arch_eq]; simp [Buffer.readBytes]
  have gr16 : (Buffer.mk c6arch 16).readBytes 1 = .ok ([88], Buffer.mk c6arch 17) := by
    rw [c6arch_eq]; simp [Buffer.readBytes]
  have gr25 : (Buffer.mk c6arch 25).readBytes 1 = .ok ([89], Buffer.mk c6arch 26) := by
    rw [c6arch_eq]; simp [Buffer.readBytes]
  have gr34 : (Buffer.mk c6arch 34).readBytes 14 = .ok ([2, 0, 0, 0, 1, 0, 0, 0, 65, 1, 0, 0, 0, 65], Buffer.mk c6arch 48) := by
    rw [c6arch_eq]; simp [Buffer.readBytes]
  have gch1 : readChunks id 1 89 (Buffer.mk c6arch 8) [] =
      .ok ([88], Buffer.mk c6arch 17) := by
    refine readChunks_fuel_mono id 1 1 89 _ _ _ ?_ (by omega)
    simp [readChunks, gu8, gu12, gr16]
  have gch2 : readChunks id 1 89 (Buffer.mk c6arch 17) [] =
      .ok ([89], Buffer.mk c6arch 26) := by
    refine readChunks_fuel_mono id 1 1 89 _ _ _ ?_ (by omega)
    simp [readChunks, gu17, gu21, gr25]
  have gch3 : readChunks id 14 89 (Buffer.mk c6arch 26) [] =
      .ok ([2, 0, 0, 0, 1, 0, 0, 0, 65, 1, 0, 0, 0, 65], Buffer.mk c6arch 48) := by
    refine readChunks_fuel_mono id 14 1 89 _ _ _ ?_ (by omega)
    simp [readChunks, gu26, gu30, gr34]
  have gents : readEntries id (Buffer.mk c6arch 0) 48 0 3 =
      .ok [(1, 8, [88]), (2, 17, [89]), (SENTINEL_CRC, 26, [2, 0, 0, 0, 1, 0, 0, 0, 65, 1, 0, 0, 0, 65])] := by
    simp [readEntries, Buffer.seek, hlen6, gu52, gu56, gu60, gu64, gu68, gu72,
      gu76, gu80, gu84, gch1, gch2, gch3]
  have gasm : assembleFiles [(1, 8, [88]), (2, 17, [89]),
      (SENTINEL_CRC, 26, [2, 0, 0, 0, 1, 0, 0, 0, 65, 1, 0, 0, 0, 65])] = .ok [("a", [89])] := by
    simp [assembleFiles, splitEntries, sortByOff, insertByOff, nameFiles, dictInsert,
      decodeName, stripNulBytes, pyLower, Buffer.uint, Buffer.readBytes, leWord,
      SENTINEL_CRC]
    try rfl
  refine ⟨?_, gents, by simp [SENTINEL_CRC], by decide⟩
  rw [readS3D]
  simp only [gu0, okBind, gr4, Buffer.seek, gu48, gents, gasm]
  norm_num

/-- The entry list of a well-formed two-file archive with distinct names
`A` and `B`, used to witness the amended C6 theorem. -/
def c6okEntries : List (Nat × Nat × List Nat) :=
  [(1, 8, [88]), (2, 17, [89]),
   (SENTINEL_CRC, 26, [2, 0, 0, 0, 1, 0, 0, 0, 65, 1, 0, 0, 0, 66])]

/-- Witness for C6's amended theorem: with the two distinct lowercase names
`a` and `b`, the mapping has exactly `3 − 1 = 2` files, each taken from a
non-sentinel entry. -/
theorem assembleFiles_directory_exclusion_witness :
    (∀ kv ∈ ([("a", [88]), ("b", [89])] : List (String × List Nat)),
      ∃ e ∈ c6okEntries, e.1 ≠ SENTINEL_CRC ∧ kv.2 = e.2.2) ∧
    ∃ dir names b2,
      (splitEntries c6okEntries none []).1 = some dir ∧
      namesRead (Buffer.mk dir 4)
        (sortByOff (splitEntries c6okEntries none []).2).length = .ok (names, b2) ∧
      ((names.map pyLower).Nodup →
        ([("a", [88]), ("b", [89])] : List (String × List Nat)).length =
          c6okEntries.length - 1) :=
  assembleFiles_directory_exclusion c6okEntries [("a", [88]), ("b", [89])]
    (by simp [assembleFiles, splitEntries, sortByOff, insertByOff, nameFiles,
      dictInsert, decodeName, stripNulBytes, pyLower, Buffer.uint, Buffer.readBytes,
      leWord, SENTINEL_CRC, c6okEntries]; try rfl)
    (by simp [c6okEntries, SENTINEL_CRC])
